import Mathlib

/-!
# SDI-12 client (`SDI12.c`) and autosampler aggregation (`autosampler.c`)

A shallow embedding of the two C translation units and the properties checked on them.

Conventions of the embedding

* A C string is the list of its characters before the terminating NUL (`CStr`); a pointer
  into a string is the list of the characters from that position on.
* A `char` array whose bytes matter individually (the receive buffer, the info fields of a
  sensor) is the list of all its bytes; `cstr` reads it the way the string functions do.
* Machine integers are naturals; where the C type can wrap, the wrap is written out.
* The scratch arrays (`command[100]`, `value_str[100]`) and the arrays written through a
  sensor are taken to be large enough for what is written to them; a `float` is
  represented by the number whose rounding it stores.
* The hardware is an explicit environment: bytes reach the receive interrupt only while the
  foreground is inside a blocking call, and every blocking call is recorded in a log.
-/

set_option maxRecDepth 100000

namespace SDI12

/-- Text of a C string: its characters before the terminating NUL. -/
abbrev CStr := List Char

/-- The NUL character. -/
def NUL : Char := '\x00'

/-- Read a `char` array as the string functions do: the bytes before the first NUL. -/
def cstr (a : List Char) : CStr := a.takeWhile (fun c => c != NUL)

/-- What the foreground does to the outside world, in program order. -/
inductive Event where
  /-- `SDI12_UART_ClearRxBuffer()` -/
  | clearRx
  /-- `SDI12_control_reg_Write(v)` -/
  | ctrl (v : Nat)
  /-- `CyDelayUs(us)` -/
  | delayUs (us : Nat)
  /-- `CyDelay(ms)` -/
  | delay (ms : Nat)
  /-- `SDI12_UART_PutString(cmd)` -/
  | put (cmd : CStr)
  deriving DecidableEq, Repr

/-- The bytes `SDI12_UART_GetChar()` hands to the receive interrupt during the `k`-th
blocking call of the foreground (`CyDelay`, `CyDelayUs`, `SDI12_UART_PutString`). -/
abbrev Line := Nat → List Char

/-- File-scope state of `SDI12.c` together with the bookkeeping of the environment.
`SDI12_uart_buf` is `static char [257]`, `SDI12_buf_idx` is `static uint8_t`; `ticks` counts
the blocking calls made so far and `log` records the outward actions. -/
structure Sys where
  SDI12_uart_buf : List Char
  SDI12_buf_idx : Nat
  ticks : Nat
  log : List Event

/-- `CY_ISR(isr_SDI12_data)`: `if (rx_char) SDI12_uart_buf[SDI12_buf_idx++] = rx_char;`
with the `uint8_t` index wrapping at 256. -/
def isr_SDI12_data (rx_char : Char) (s : Sys) : Sys :=
  if rx_char != NUL then
    { s with SDI12_uart_buf := s.SDI12_uart_buf.set s.SDI12_buf_idx rx_char,
             SDI12_buf_idx := (s.SDI12_buf_idx + 1) % 256 }
  else s

/-- The interrupt run once for each byte of a burst, in arrival order. -/
def receive (bytes : List Char) (s : Sys) : Sys :=
  bytes.foldl (fun st b => isr_SDI12_data b st) s

/-- `SDI12_uart_clear_string()`: clear the UART receive FIFO,
`memset(SDI12_uart_buf, 0, sizeof(SDI12_uart_buf))`, `SDI12_buf_idx = 0`. -/
def SDI12_uart_clear_string (s : Sys) : Sys :=
  { s with SDI12_uart_buf := List.replicate 257 NUL,
           SDI12_buf_idx := 0,
           log := s.log ++ [Event.clearRx] }

/-- `SDI12_uart_get_string()`: the buffer itself, read as a string. -/
def SDI12_uart_get_string (s : Sys) : CStr := cstr s.SDI12_uart_buf

/-- A blocking call of the foreground: it is logged, and the bytes that arrive while it
lasts are taken by the receive interrupt one after the other. -/
def block (line : Line) (e : Event) (s : Sys) : Sys :=
  { receive (line s.ticks) s with ticks := s.ticks + 1, log := s.log ++ [e] }

/-- `CyDelay(ms)`. -/
def CyDelay (line : Line) (ms : Nat) (s : Sys) : Sys := block line (Event.delay ms) s

/-- `CyDelayUs(us)`. -/
def CyDelayUs (line : Line) (us : Nat) (s : Sys) : Sys := block line (Event.delayUs us) s

/-- `SDI12_UART_PutString(cmd)`. -/
def SDI12_UART_PutString (line : Line) (cmd : CStr) (s : Sys) : Sys :=
  block line (Event.put cmd) s

/-- `SDI12_control_reg_Write(v)`. -/
def SDI12_control_reg_Write (v : Nat) (s : Sys) : Sys :=
  { s with log := s.log ++ [Event.ctrl v] }

/-! ### String functions of the C library -/

/-- `strstr(haystack, needle)`: the text from the first occurrence of `needle` on, `none`
for NULL. -/
def strstr : CStr → CStr → Option CStr
  | [], needle => if needle = [] then some [] else none
  | c :: t, needle =>
    if needle.isPrefixOf (c :: t) then some (c :: t) else strstr t needle

/-- `strncpy(dest, src, n)` on the bytes of `dest`: the first `n` bytes become the first
`n` characters of `src`, padded with NULs when `src` is shorter; no terminator is added
when `src` has `n` characters or more, and the bytes of `dest` from `n` on are kept.
(`dest` is assumed to have room for `n` bytes.) -/
def strncpy (dest : List Char) (src : CStr) (n : Nat) : List Char :=
  src.take n ++ List.replicate (n - src.length) NUL ++ dest.drop n

/-- `isspace` in the C locale. -/
def isspace (c : Char) : Bool :=
  c == ' ' || c == '\t' || c == '\n' || c == '\x0b' || c == '\x0c' || c == '\r'

/-- `isdigit`. -/
def isdigit (c : Char) : Bool := decide ('0'.toNat ≤ c.toNat ∧ c.toNat ≤ '9'.toNat)

/-- `isxdigit`. -/
def isxdigit (c : Char) : Bool :=
  isdigit c || decide ('a'.toNat ≤ c.toNat ∧ c.toNat ≤ 'f'.toNat) ||
    decide ('A'.toNat ≤ c.toNat ∧ c.toNat ≤ 'F'.toNat)

/-- Value of a decimal digit. -/
def digitVal (c : Char) : Nat := c.toNat - '0'.toNat

/-- Value of a hexadecimal digit. -/
def xdigitVal (c : Char) : Nat :=
  if isdigit c then c.toNat - '0'.toNat
  else if 'a'.toNat ≤ c.toNat then c.toNat - 'a'.toNat + 10
  else c.toNat - 'A'.toNat + 10

/-- The number a `strtod` subject sequence denotes, before any rounding:
`fin neg mant base exp` is `(-1)^neg * mant * base^exp`. -/
inductive Num where
  | fin (neg : Bool) (mant : Nat) (base : Nat) (exp : Int)
  | inf (neg : Bool)
  | nan
  deriving DecidableEq, Repr

/-- The rational a finite `Num` denotes (0 for the others). -/
def Num.toRat : Num → ℚ
  | Num.fin neg mant base exp => (if neg then -1 else 1) * (mant : ℚ) * (base : ℚ) ^ exp
  | _ => 0

/-- `(uint32) d` for the double `d` read by `strtod`: the value truncated towards zero;
`none` where C leaves the conversion undefined (NaN, infinities, a truncated value outside
`0 .. 2^32 - 1`). The rounding of the number to a double is left out: the strings the
code converts this way have at most three characters, whose integer part it cannot
change. -/
def Num.toUInt32 : Num → Option Nat
  | Num.fin neg mant base exp =>
    let t := if 0 ≤ exp then mant * base ^ exp.toNat else mant / base ^ (-exp).toNat
    if t = 0 then some 0
    else if neg then none
    else if t < 2 ^ 32 then some t
    else none
  | _ => none

/-- The longest run of digits at the head of a string, accumulated on `acc` in the given
base: the value, the number of digits added to `n`, and the text after the run. -/
def scanDigits (base : Nat) (isd : Char → Bool) (val : Char → Nat) :
    List Char → Nat → Nat → Nat × Nat × List Char
  | [], acc, n => (acc, n, [])
  | c :: t, acc, n =>
    if isd c then scanDigits base isd val t (acc * base + val c) (n + 1)
    else (acc, n, c :: t)

/-- A digit sequence optionally containing a point: the digits as one integer, how many
digits there are, how many of them follow the point, and the text after the sequence.
Without any digit nothing is consumed. -/
def scanMantissa (base : Nat) (isd : Char → Bool) (val : Char → Nat) (s : List Char) :
    Nat × Nat × Nat × List Char :=
  match scanDigits base isd val s 0 0 with
  | (m1, n1, '.' :: r2) =>
    match scanDigits base isd val r2 m1 0 with
    | (m2, n2, r3) => if n1 + n2 = 0 then (0, 0, 0, s) else (m2, n1 + n2, n2, r3)
  | (m1, n1, r1) => (m1, n1, 0, r1)

/-- An optional exponent part: the marker, an optional sign and at least one decimal
digit. Returns the exponent and the text after it; without a digit nothing is consumed. -/
def scanExponent (marker : Char → Bool) (s : List Char) : Int × List Char :=
  match s with
  | [] => (0, [])
  | c :: t =>
    if marker c then
      let signed : Bool × List Char :=
        match t with
        | '+' :: u => (false, u)
        | '-' :: u => (true, u)
        | _ => (false, t)
      match scanDigits 10 isdigit digitVal signed.2 0 0 with
      | (e, n, r) =>
        if n = 0 then (0, s) else (if signed.1 then -(e : Int) else (e : Int), r)
    else (0, s)

/-- The optional `(n-char-sequence)` after `NAN`. -/
def scanNanTail (s : List Char) : List Char :=
  match s with
  | '(' :: t =>
    match t.dropWhile (fun c => c.isAlphanum || c == '_') with
    | ')' :: r => r
    | _ => s
  | _ => s

/-- An optional sign at the head of a string: whether it is `-`, and the text after it. -/
def splitSign (s : List Char) : Bool × List Char :=
  match s with
  | '+' :: u => (false, u)
  | '-' :: u => (true, u)
  | _ => (false, s)

/-- The text after a `0x` or `0X` prefix, when there is one. -/
def hexBody (s : List Char) : Option (List Char) :=
  match s with
  | '0' :: x :: t => if x == 'x' || x == 'X' then some t else none
  | _ => none

/-- The decimal form of `strtod`: digits optionally containing a point, then an optional
exponent part. Without a digit there is no conversion: zero, and `endptr` is `nptr`. -/
def strtodDecimal (nptr : CStr) (neg : Bool) (body : List Char) : Num × CStr :=
  match scanMantissa 10 isdigit digitVal body with
  | (m, n, f, r) =>
    if n = 0 then (Num.fin false 0 10 0, nptr)
    else
      match scanExponent (fun c => c == 'e' || c == 'E') r with
      | (e, r2) => (Num.fin neg m 10 (e - (f : Int)), r2)

/-- `strtod(nptr, &endptr)` of the C library, in the C locale: the number denoted by the
longest prefix that is optional white space, an optional sign and a decimal floating
constant, a hexadecimal one, `INF`/`INFINITY` or `NAN`/`NAN(...)`; and `endptr`, the text
after it. With no such prefix the value is zero and `endptr` is `nptr`. -/
def strtod (nptr : CStr) : Num × CStr :=
  let signed := splitSign (nptr.dropWhile isspace)
  let neg := signed.1
  let body := signed.2
  if (body.take 8).map Char.toLower = "infinity".toList then (Num.inf neg, body.drop 8)
  else if (body.take 3).map Char.toLower = "inf".toList then (Num.inf neg, body.drop 3)
  else if (body.take 3).map Char.toLower = "nan".toList then
    (Num.nan, scanNanTail (body.drop 3))
  else
    match hexBody body with
    | some t =>
      match scanMantissa 16 isxdigit xdigitVal t with
      | (m, n, f, r) =>
        if n = 0 then strtodDecimal nptr neg body
        else
          match scanExponent (fun c => c == 'p' || c == 'P') r with
          | (e, r2) => (Num.fin neg m 2 (e - 4 * (f : Int)), r2)
    | none => strtodDecimal nptr neg body

/-! ### Helpers of `misc.c` -/

/-- Modelled from the spec: `clear_str` of `misc.c`, which is not among the sources. The
spec only names the scratch strings it is applied to (§9, "command/value/delay strings");
by its name and its uses it empties the string it is given, every byte of the array being
NUL afterwards. -/
def clear_str (_str : CStr) : CStr := []

/-- The text after the last occurrence of `pat`, `none` when `pat` does not occur. -/
def afterLast (pat : CStr) : CStr → Option CStr
  | [] => if pat = [] then some [] else none
  | c :: t =>
    match afterLast pat t with
    | some r => some r
    | none => if pat.isPrefixOf (c :: t) then some ((c :: t).drop pat.length) else none

/-- The text before the first occurrence of `pat`, `none` when `pat` does not occur. -/
def beforeFirst (pat : CStr) : CStr → Option CStr
  | [] => if pat = [] then some [] else none
  | c :: t =>
    if pat.isPrefixOf (c :: t) then some []
    else (beforeFirst pat t).map (fun r => c :: r)

/-- Modelled from the spec: `strextract` of `misc.c`, which is not among the sources.
§4.3: the snapshot is inspected "for the two-byte terminator sequence ... anywhere after
the command-echo sentinel character (`!`)"; the result is "the substring between the last
`!` and the terminator on success, or a not-found result". `search_start` is the sentinel,
`search_end` the terminator; `some` carries what is copied to `output_str`, and on `none`
`output_str` is left as it was. -/
def strextract (input_str search_start search_end : CStr) : Option CStr :=
  match afterLast search_start input_str with
  | none => none
  | some body => beforeFirst search_end body

/-! ### `SDI12.h` -/

/-- `SDI12_sensor` of `SDI12.h` (the header is not among the sources; the fields are
those `SDI12.c` uses). `address` is a string; `nvars` is an unsigned count; the five info
fields are `char` arrays, kept byte by byte; `values[i]` holds the number whose `float`
rounding the C array stores. -/
structure SDI12_sensor where
  address : CStr
  nvars : Nat
  v_SDI12 : List Char
  vendor : List Char
  model : List Char
  version : List Char
  serial : List Char
  values : Nat → Num

/-! ### `SDI12.c` -/

/-- `const char take_measurement[] = "M";` -/
def take_measurement : CStr := "M".toList
/-- `const char read_measurement[] = "D0";` -/
def read_measurement : CStr := "D0".toList
/-- `const char concurrent_measurement[] = "C";` -/
def concurrent_measurement : CStr := "C".toList
/-- `const char addr_query[] = "?";` -/
def addr_query : CStr := "?".toList
/-- `const char ack_active[] = "";` -/
def ack_active : CStr := "".toList
/-- `const char change_addr[] = "A";` -/
def change_addr : CStr := "A".toList
/-- `const char info[] = "I";` -/
def info : CStr := "I".toList

/-- The string `"!"`. -/
def bang : CStr := "!".toList
/-- The string `"\r\n"`. -/
def crlf : CStr := "\r\n".toList

/-- The sentinel `-9999.0f`. -/
def sentinel : Num := Num.fin true 99990 10 (-1)

/-- `SDI12_send_command(command)`: line high for 12 ms, low for 8.4 ms, then the command
is written out. -/
def SDI12_send_command (line : Line) (command : CStr) (s : Sys) : Sys :=
  let s := SDI12_control_reg_Write 1 s
  let s := CyDelayUs line 12000 s
  let s := SDI12_control_reg_Write 0 s
  let s := CyDelayUs line 8400 s
  SDI12_UART_PutString line command s

/-- `SDI12_is_active(sensor)`: one delay of 1000 ms, then a single look at the buffer. -/
def SDI12_is_active (line : Line) (sensor : SDI12_sensor) (s : Sys) : Nat × Sys :=
  let command := sensor.address ++ ack_active ++ bang
  let s := SDI12_uart_clear_string s
  let s := SDI12_send_command line command s
  let s := CyDelay line 1000 s
  match strextract (SDI12_uart_get_string s) bang crlf with
  | some _ => (1, s)
  | none => (0, s)

/-- The loop of `SDI12_change_address`, with `n` iterations left:
`for (i = 0; i < 200; i++) { CyDelay(5u); if (strstr(SDI12_uart_buf, value_str)) {...} }`. -/
def changeAddressLoop (line : Line) (new_address value_str : CStr) (sensor : SDI12_sensor) :
    Nat → Sys → Nat × SDI12_sensor × Sys
  | 0, s => (0, sensor, s)
  | n + 1, s =>
    let s := CyDelay line 5 s
    match strstr (SDI12_uart_get_string s) value_str with
    | some _ => (1, { sensor with address := new_address }, s)
    | none => changeAddressLoop line new_address value_str sensor n s

/-- `SDI12_change_address(sensor, new_address)`. -/
def SDI12_change_address (line : Line) (sensor : SDI12_sensor) (new_address : CStr)
    (s : Sys) : Nat × SDI12_sensor × Sys :=
  let command := sensor.address ++ change_addr ++ new_address ++ bang
  let s := SDI12_uart_clear_string s
  let s := SDI12_send_command line command s
  let value_str := new_address ++ crlf
  changeAddressLoop line new_address value_str sensor 200 s

/-- The wait loop of `SDI12_take_measurement`, with `n` iterations left:
`for (i = 0; i < 200; i++) { CyDelay(5u); if (strextract(...)) break; }`. The second
component is `value_str` after the loop. -/
def waitLoop (line : Line) (value_str : CStr) : Nat → Sys → Sys × CStr
  | 0, s => (s, value_str)
  | n + 1, s =>
    let s := CyDelay line 5 s
    match strextract (SDI12_uart_get_string s) bang crlf with
    | some v => (s, v)
    | none => waitLoop line value_str n s

/-- `for (i = 0; i < nvars; i++) values[i] = -9999.0f;` with the `uint8` counter `i`;
`none` when the fuel runs out. -/
def sentinelLoop (nvars : Nat) : Nat → Nat → (Nat → Num) → Option (Nat → Num)
  | 0, _, _ => none
  | fuel + 1, i, values =>
    if i < nvars then
      sentinelLoop nvars fuel ((i + 1) % 256) (Function.update values i sentinel)
    else some values

/-- `for (i = 0; i < nvars; i++) values[i] = (float) strtod(ptr_end, &ptr_end);` with
the `uint8` counter `i`; `none` when the fuel runs out. -/
def parseLoop (nvars : Nat) : Nat → Nat → CStr → (Nat → Num) → Option ((Nat → Num) × CStr)
  | 0, _, _, _ => none
  | fuel + 1, i, ptr_end, values =>
    if i < nvars then
      parseLoop nvars fuel ((i + 1) % 256) (strtod ptr_end).2
        (Function.update values i (strtod ptr_end).1)
    else some (values, ptr_end)

/-- Step 4 of `SDI12_take_measurement`: the sign check and the parse of `value_str`.
The counter `i` takes 256 values, so a loop that has not ended after 257 tests of
`i < nvars` never ends; `none` stands for that. -/
def parseMeasurement (sensor : SDI12_sensor) (value_str : CStr) :
    Option (Nat × SDI12_sensor) :=
  match strstr value_str "+".toList with
  | some _ =>
    (parseLoop sensor.nvars 257 0 (value_str.drop sensor.address.length) sensor.values).map
      (fun r => (1, { sensor with values := r.1 }))
  | none =>
    match strstr value_str "-".toList with
    | some _ =>
      (parseLoop sensor.nvars 257 0 (value_str.drop sensor.address.length)
        sensor.values).map (fun r => (1, { sensor with values := r.1 }))
    | none =>
      (sentinelLoop sensor.nvars 257 0 sensor.values).map
        (fun v => (0, { sensor with values := v }))

/-- State and `value_str` after steps 1 and 2 of `SDI12_take_measurement`: the `M`
command is sent and the acknowledgement awaited. -/
def measurementAck (line : Line) (sensor : SDI12_sensor) (s : Sys) : Sys × CStr :=
  let command := sensor.address ++ take_measurement ++ bang
  let s := SDI12_uart_clear_string s
  let s := SDI12_send_command line command s
  waitLoop line (clear_str []) 200 s

/-- The string `strtod` is applied to for the delay:
`strncpy(delay_str, value_str + strlen(address), 3)` into the cleared `delay_str[10]`. -/
def delayField (sensor : SDI12_sensor) (value_str : CStr) : CStr :=
  cstr (strncpy (List.replicate 10 NUL) (value_str.drop sensor.address.length) 3)

/-- State and `value_str` after step 3 of `SDI12_take_measurement`, for the delay
`ms_delay`: the sleep, the `D0` command and the wait for the data. -/
def measurementData (line : Line) (sensor : SDI12_sensor) (ms_delay : Nat) (s : Sys) :
    Sys × CStr :=
  let s := CyDelay line ms_delay s
  let command := sensor.address ++ read_measurement ++ bang
  let s := SDI12_uart_clear_string s
  let s := SDI12_send_command line command s
  waitLoop line (clear_str []) 200 s

/-- `SDI12_take_measurement(sensor)`. `none` where the C program has no defined result:
the `(uint32)` conversion of the delay is undefined, or a loop over `nvars` never ends. -/
def SDI12_take_measurement (line : Line) (sensor : SDI12_sensor) (s : Sys) :
    Option (Nat × SDI12_sensor × Sys) :=
  match measurementAck line sensor s with
  | (s, value_str) =>
    match (strtod (delayField sensor value_str)).1.toUInt32 with
    | none => none
    | some d =>
      let ms_delay := d * 1000 % 2 ^ 32
      match measurementData line sensor ms_delay s with
      | (s, value_str) =>
        (parseMeasurement sensor value_str).map (fun r => (r.1, r.2, s))

/-- `SDI12_take_concurrent_measurement(sensor)`: `return SDI12_is_active(sensor);`. -/
def SDI12_take_concurrent_measurement (line : Line) (sensor : SDI12_sensor) (s : Sys) :
    Nat × Sys :=
  SDI12_is_active line sensor s

/-- The body of the `if` in `SDI12_info`: the five `strncpy` calls on `value_str`. -/
def parseInfo (sensor : SDI12_sensor) (value_str : CStr) : SDI12_sensor :=
  let ptr_end := value_str.drop sensor.address.length
  let sensor := { sensor with v_SDI12 := strncpy sensor.v_SDI12 ptr_end 2 }
  let ptr_end := ptr_end.drop 2
  let sensor := { sensor with vendor := strncpy sensor.vendor ptr_end 8 }
  let ptr_end := ptr_end.drop 8
  let sensor := { sensor with model := strncpy sensor.model ptr_end 6 }
  let ptr_end := ptr_end.drop 6
  let sensor := { sensor with version := strncpy sensor.version ptr_end 3 }
  let ptr_end := ptr_end.drop 3
  { sensor with serial := strncpy sensor.serial ptr_end 13 }

/-- The loop of `SDI12_info`, with `n` iterations left. -/
def infoLoop (line : Line) (sensor : SDI12_sensor) : Nat → Sys → Nat × SDI12_sensor × Sys
  | 0, s => (0, sensor, s)
  | n + 1, s =>
    let s := CyDelay line 5 s
    match strextract (SDI12_uart_get_string s) bang crlf with
    | some value_str => (1, parseInfo sensor value_str, s)
    | none => infoLoop line sensor n s

/-- `SDI12_info(sensor)`. -/
def SDI12_info (line : Line) (sensor : SDI12_sensor) (s : Sys) : Nat × SDI12_sensor × Sys :=
  let command := sensor.address ++ info ++ bang
  let s := SDI12_uart_clear_string s
  let s := SDI12_send_command line command s
  infoLoop line sensor 200 s

/-- `zip_SDI12(labels, readings, array_ix, max_size)`: `return *array_ix;`. -/
def zip_SDI12 (array_ix : Nat) (_max_size : Nat) : Nat := array_ix

/-! ### Notions used to state the properties -/

/-- What a slot of the receive buffer holds after the bytes `bs`: the byte `b_k` of the largest
`k` with `k % 256 = j`, and NUL when there is no such `k`. -/
def SlotHolds (bs : List Char) (j : Nat) (c : Char) : Prop :=
  (∀ k, k < bs.length → k % 256 = j →
      (∀ k2, k2 < bs.length → k2 % 256 = j → k2 ≤ k) → bs[k]? = some c) ∧
  ((∀ k, k < bs.length → k % 256 ≠ j) → c = NUL)

/-- The state in which the poll number `j` (from 0) of a wait loop entered in state `s`
inspects the receive buffer: `j + 1` delays of 5 ms have gone by. -/
def atPoll (line : Line) (s : Sys) : Nat → Sys
  | 0 => CyDelay line 5 s
  | j + 1 => CyDelay line 5 (atPoll line s j)

/-- The command strings written to the bus, in order. -/
def sent : List Event → List CStr
  | [] => []
  | Event.put cmd :: es => cmd :: sent es
  | _ :: es => sent es

/-- The number of 5 ms polling cycles in a log. -/
def pollCount (log : List Event) : Nat := log.count (Event.delay 5)

/-- The outward actions of `SDI12_send_command(command)`. -/
def sendEvents (command : CStr) : List Event :=
  [Event.ctrl 1, Event.delayUs 12000, Event.ctrl 0, Event.delayUs 8400, Event.put command]

/-- Value of a string of decimal digits. -/
def decVal (ds : List Char) : Nat := ds.foldl (fun a c => a * 10 + digitVal c) 0

/-- A signed decimal token of a data response: a sign, integer digits and, when there is
a decimal point, the digits after it. -/
structure Token where
  neg : Bool
  intDigits : List Char
  point : Bool
  fracDigits : List Char
  deriving DecidableEq, Repr

/-- The characters of a token. -/
def Token.text (t : Token) : CStr :=
  (if t.neg then '-' else '+') :: t.intDigits ++ (if t.point then '.' :: t.fracDigits else [])

/-- A token is well formed when its digits are decimal digits, there is at least one of
them, and there are no fraction digits without a point. -/
def Token.WellFormed (t : Token) : Prop :=
  (∀ c ∈ t.intDigits, isdigit c = true) ∧ (∀ c ∈ t.fracDigits, isdigit c = true) ∧
  0 < t.intDigits.length + t.fracDigits.length ∧ (t.point = false → t.fracDigits = [])

instance (t : Token) : Decidable t.WellFormed := by
  unfold Token.WellFormed
  exact inferInstance

/-- The number a token denotes: its digits read as one integer, scaled by the number of
fraction digits. -/
def Token.num (t : Token) : Num :=
  Num.fin t.neg (decVal (t.intDigits ++ t.fracDigits)) 10 (-(t.fracDigits.length : Int))

/-- The text after a token either is empty or begins with the sign of the next token. -/
def SignOrEnd (rest : List Char) : Prop :=
  rest = [] ∨ ∃ t, rest = '+' :: t ∨ rest = '-' :: t

/-- The characters of a list of tokens, one after the other. -/
def tokensText (toks : List Token) : CStr := (toks.map Token.text).flatten

/-- Where `ptr_end` points after `i` calls `strtod(ptr_end, &ptr_end)` started at `ptr`. -/
def endptrAfter : CStr → Nat → CStr
  | ptr, 0 => ptr
  | ptr, i + 1 => endptrAfter (strtod ptr).2 i

/-- Two lines deliver the same bytes in every blocking call from the `t`-th on. -/
def AgreeFrom (line1 line2 : Line) (t : Nat) : Prop := ∀ k, t ≤ k → line1 k = line2 k

/-- The CLEAR and SEND steps that open every operation:
`SDI12_uart_clear_string(); SDI12_send_command(command);`. -/
def request (line : Line) (command : CStr) (s : Sys) : Sys :=
  SDI12_send_command line command (SDI12_uart_clear_string s)

/-- The outward actions of `request`. -/
def requestEvents (command : CStr) : List Event := Event.clearRx :: sendEvents command

/-- A command string begins with the address character and ends with `!`. -/
def Framed (c : Char) (cmd : CStr) : Prop := cmd.head? = some c ∧ cmd.getLast? = some '!'

/-- A valid sensor address: one of `0`-`9`, `a`-`z`, `A`-`Z`. -/
def validAddress (c : Char) : Bool := c.isAlphanum

/-! ### Concrete inputs used in the examples -/

/-- A line on which nothing is ever received. -/
def quietLine : Line := fun _ => []

/-- The state at power-up: the buffer zeroed, nothing done yet. -/
def sys0 : Sys := ⟨List.replicate 257 NUL, 0, 0, []⟩

/-- A sensor at address `a` with `n` values, its info fields zeroed arrays one byte
longer than the field, every value slot holding 7. -/
def sensorA (n : Nat) : SDI12_sensor :=
  { address := ['a'], nvars := n,
    v_SDI12 := List.replicate 3 NUL, vendor := List.replicate 9 NUL,
    model := List.replicate 7 NUL, version := List.replicate 4 NUL,
    serial := List.replicate 14 NUL,
    values := fun _ => Num.fin false 7 10 0 }

/-- A line on which the sensor answers every command at once: the echo of the `M` command
comes in while it is sent (blocking call 2), the acknowledgement `a015 02` during the
first poll (call 3); after the sleep (call 4) the echo of `D0` (call 7) and the data
`a+12.3-4.50` (call 8). -/
def promptLine : Line := fun k =>
  if k = 2 then "aM!".toList
  else if k = 3 then "a015 02\r\n".toList
  else if k = 7 then "aD0!".toList
  else if k = 8 then "a+12.3-4.50\r\n".toList
  else []

/-- A line on which the sensor acknowledges with no delay (`a0000`) and answers the `D0`
command with its address alone, no value. -/
def emptyDataLine : Line := fun k =>
  if k = 2 then "aM!".toList
  else if k = 3 then "a0000\r\n".toList
  else if k = 7 then "aD0!".toList
  else if k = 8 then "a\r\n".toList
  else []

/-- The tokens `+12.3` and `-4.50`. -/
def sampleTokens : List Token :=
  [⟨false, ['1', '2'], true, ['3']⟩, ⟨true, ['4'], true, ['5', '0']⟩]

/-- The line `promptLine` with another value count in the acknowledgement: `a015 07`
announces seven values; everything else is the same. -/
def countLine : Line := fun k =>
  if k = 3 then "a015 07\r\n".toList else promptLine k

/-- A line on which the sensor answers the `I` command at once with version `13`, vendor
`ACMECORP`, model `WX-100`, firmware `2.1` and serial `SN00042`. -/
def infoLine : Line := fun k =>
  if k = 2 then "aI!".toList
  else if k = 3 then "a13ACMECORPWX-1002.1SN00042\r\n".toList
  else []

end SDI12

namespace Autosampler

/-- The values of `autosampler_state` (`AUTOSAMPLER_STATE_OFF`, `_IDLE`, `_BUSY` of
`autosampler.h`, which is not among the sources). -/
inductive State where
  | off
  | idle
  | busy
  deriving DecidableEq, Repr

/-- What `autosampler.c` does to the hardware, in program order. -/
inductive Event where
  /-- `isr_SampleCounter_StartEx(isr_SampleCounter)` -/
  | isrStart
  /-- `PulseCounter_Start()` -/
  | counterStart
  /-- `Pin_Sampler_Power_Write(v)` -/
  | power (v : Nat)
  /-- `CyDelay(ms)` -/
  | delay (ms : Nat)
  /-- `start_Pulse_MUX()` -/
  | muxStart
  /-- `Pulse_MUX_Controller_Write(v)` -/
  | muxSelect (v : Nat)
  /-- `PulseCounter_WriteCounter(v)` -/
  | counterWrite (v : Nat)
  /-- `Pin_Sampler_Trigger_Write(v)` -/
  | trigger (v : Nat)
  /-- `stop_Pulse_MUX()` -/
  | muxStop
  deriving DecidableEq, Repr

/-- The hardware as the code reads it: `completed k` tells whether the `k`-th call of
`Pin_Sampler_Completed_Sample_Read()` returns non-zero, `counter` is what
`PulseCounter_ReadCounter()` returns. `MAX_BOTTLE_COUNT` and `PULSE_COUNT` are macros of
`autosampler.h`, which is not among the sources, and are taken as given. -/
structure Hw where
  MAX_BOTTLE_COUNT : Nat
  PULSE_COUNT : Nat
  completed : Nat → Bool
  counter : Nat

/-- File-scope state of `autosampler.c` with the bookkeeping of the environment:
`reads` counts the calls of `Pin_Sampler_Completed_Sample_Read()`. -/
structure Dev where
  autosampler_state : State
  reads : Nat
  log : List Event

/-- `autosampler_start()`. -/
def autosampler_start (d : Dev) : Nat × Dev :=
  (1, { d with log := d.log ++ [Event.isrStart, Event.counterStart],
               autosampler_state := State.off })

/-- `autosampler_stop()`. -/
def autosampler_stop (d : Dev) : Nat × Dev := (1, d)

/-- `autosampler_power_on()`. -/
def autosampler_power_on (d : Dev) : Nat × Dev :=
  (1, { d with log := d.log ++ [Event.power 1, Event.delay 1000],
               autosampler_state := State.idle })

/-- `autosampler_power_off()`. -/
def autosampler_power_off (d : Dev) : Nat × Dev :=
  (1, { d with log := d.log ++ [Event.power 0], autosampler_state := State.off })

/-- `for (i = 0; i < PULSE_COUNT; i++) { trigger 1; CyDelay(100); trigger 0; CyDelay(100); }`
with `n` iterations left. -/
def pulseLoop : Nat → Dev → Dev
  | 0, d => d
  | n + 1, d =>
    pulseLoop n { d with log := d.log ++
      [Event.trigger 1, Event.delay 100, Event.trigger 0, Event.delay 100] }

/-- `for (i = 0; i < interval; i++) { CyDelay(delay); if (pin read is `level`) break; }`
with `n` iterations left; `level` is `true` for the test `!= 0`, `false` for `== 0`. -/
def pinLoop (hw : Hw) (delay : Nat) (level : Bool) : Nat → Dev → Dev
  | 0, d => d
  | n + 1, d =>
    let d1 : Dev := { d with log := d.log ++ [Event.delay delay], reads := d.reads + 1 }
    if hw.completed d.reads = level then d1 else pinLoop hw delay level n d1

/-- `autosampler_take_sample(count)`: the result and the new `*count`. -/
def autosampler_take_sample (hw : Hw) (count : Nat) (d : Dev) : Nat × Nat × Dev :=
  if count ≥ hw.MAX_BOTTLE_COUNT then (0, count, d)
  else
    let delay := 100
    let d : Dev :=
      { d with autosampler_state := State.busy,
               log := d.log ++ [Event.muxStart, Event.muxSelect 0, Event.counterWrite 0] }
    let d := pulseLoop hw.PULSE_COUNT d
    let interval := 3 * 60 * 1000 / delay
    let d := pinLoop hw delay true interval d
    let d1 : Dev := { d with reads := d.reads + 1 }
    let d :=
      if hw.completed d.reads then
        let interval := 10 * 60 * 1000 / delay
        pinLoop hw delay false interval d1
      else d1
    let d : Dev := { d with autosampler_state := State.idle, log := d.log ++ [Event.muxStop] }
    let count2 := hw.counter % 256
    (1, count2, d)

/-- The caller's memory that `zip_autosampler` works on: the two output arrays, `*array_ix`
(uint8), `*autosampler_trigger` (int) and `*bottle_count` (uint8). A reading is the
integer whose `float` value the C array stores. `written` is not C state: it lists, in
order, the indices at which a label or a reading was stored. -/
structure Mem where
  labels : Nat → String
  readings : Nat → Int
  array_ix : Nat
  autosampler_trigger : Int
  bottle_count : Nat
  written : List Nat

/-- `zip_autosampler(labels, readings, array_ix, autosampler_trigger, bottle_count,
max_size)`: the returned index, the memory and the device afterwards. The test
`*array_ix + nvars >= max_size` is evaluated in `int`; `(*array_ix)++` is on a `uint8`. -/
def zip_autosampler (hw : Hw) (m : Mem) (max_size : Nat) (d : Dev) : Nat × Mem × Dev :=
  let nvars := 2
  if m.array_ix + nvars ≥ max_size then (m.array_ix, m, d)
  else
    let m : Mem := { m with autosampler_trigger := 0 }
    let m : Mem := { m with labels := Function.update m.labels m.array_ix "autosampler_trigger",
                            written := m.written ++ [m.array_ix] }
    let m : Mem := { m with readings := Function.update m.readings m.array_ix 0,
                            written := m.written ++ [m.array_ix] }
    let m : Mem := { m with array_ix := (m.array_ix + 1) % 256 }
    if m.bottle_count < hw.MAX_BOTTLE_COUNT then
      let m : Mem := { m with labels := Function.update m.labels m.array_ix "isco_bottle",
                              written := m.written ++ [m.array_ix] }
      let d := (autosampler_start d).2
      let d := (autosampler_power_on d).2
      let r := autosampler_take_sample hw m.bottle_count d
      let m : Mem := { m with bottle_count := r.2.1 }
      let m : Mem :=
        if r.1 ≠ 0 then
          { m with readings := Function.update m.readings m.array_ix (m.bottle_count : Int),
                   written := m.written ++ [m.array_ix] }
        else
          { m with readings := Function.update m.readings m.array_ix (-1),
                   written := m.written ++ [m.array_ix] }
      let d := (autosampler_power_off r.2.2).2
      let d := (autosampler_stop d).2
      let m : Mem := { m with array_ix := (m.array_ix + 1) % 256 }
      (m.array_ix, m, d)
    else (m.array_ix, m, d)

/-! ### Concrete inputs used in the examples -/

/-- A sampler with 24 bottles, triggered by 20 pulses, whose event pin never rises and
whose pulse counter reads 5. -/
def hw0 : Hw := ⟨24, 20, fun _ => false, 5⟩

/-- The device before `autosampler_start`. -/
def dev0 : Dev := ⟨State.off, 0, []⟩

/-- Output arrays with write index `ix`, four bottles used so far. -/
def mem0 (ix : Nat) : Mem := ⟨fun _ => "", fun _ => 0, ix, 1, 4, []⟩

end Autosampler

namespace SDI12

/-! ## Receive buffer -/

theorem receive_append (xs ys : List Char) (s : Sys) :
    receive (xs ++ ys) s = receive ys (receive xs s) := by
  simp [receive, List.foldl_append]

theorem receive_snoc (xs : List Char) (b : Char) (s : Sys) :
    receive (xs ++ [b]) s = isr_SDI12_data b (receive xs s) := by
  simp [receive, List.foldl_append]

theorem isr_length (b : Char) (s : Sys) :
    (isr_SDI12_data b s).SDI12_uart_buf.length = s.SDI12_uart_buf.length := by
  unfold isr_SDI12_data
  split <;> simp

theorem receive_length (bs : List Char) (s : Sys) :
    (receive bs s).SDI12_uart_buf.length = s.SDI12_uart_buf.length := by
  induction bs using List.reverseRecOn with
  | nil => rfl
  | append_singleton xs b ih => rw [receive_snoc, isr_length, ih]

theorem isr_ticks (b : Char) (s : Sys) : (isr_SDI12_data b s).ticks = s.ticks := by
  unfold isr_SDI12_data
  split <;> rfl

theorem isr_log (b : Char) (s : Sys) : (isr_SDI12_data b s).log = s.log := by
  unfold isr_SDI12_data
  split <;> rfl

theorem receive_ticks (bs : List Char) (s : Sys) : (receive bs s).ticks = s.ticks := by
  induction bs using List.reverseRecOn with
  | nil => rfl
  | append_singleton xs b ih => rw [receive_snoc, isr_ticks, ih]

theorem receive_log (bs : List Char) (s : Sys) : (receive bs s).log = s.log := by
  induction bs using List.reverseRecOn with
  | nil => rfl
  | append_singleton xs b ih => rw [receive_snoc, isr_log, ih]

/-- The state of the buffer after a clear and the non-zero bytes `bs`. -/
theorem receive_after_clear (s0 : Sys) (bs : List Char) (hnz : ∀ b ∈ bs, b ≠ NUL) :
    (receive bs (SDI12_uart_clear_string s0)).SDI12_buf_idx = bs.length % 256 ∧
    (receive bs (SDI12_uart_clear_string s0)).SDI12_uart_buf.length = 257 ∧
    (receive bs (SDI12_uart_clear_string s0)).SDI12_uart_buf[256]? = some NUL ∧
    ∀ j, j < 256 → ∃ c,
      (receive bs (SDI12_uart_clear_string s0)).SDI12_uart_buf[j]? = some c ∧
      SlotHolds bs j c := by
  induction bs using List.reverseRecOn with
  | nil =>
    have hbuf : (receive [] (SDI12_uart_clear_string s0)).SDI12_uart_buf =
        List.replicate 257 NUL := rfl
    refine ⟨rfl, by rw [hbuf, List.length_replicate], ?_, ?_⟩
    · rw [hbuf, List.getElem?_replicate, if_pos (by omega)]
    · intro j hj
      refine ⟨NUL, ?_, ?_⟩
      · rw [hbuf, List.getElem?_replicate, if_pos (by omega)]
      · exact ⟨fun k hk => absurd hk (by simp), fun _ => rfl⟩
  | append_singleton xs b ih =>
    have hxs : ∀ c ∈ xs, c ≠ NUL := fun c hc => hnz c (by simp [hc])
    have hb : b ≠ NUL := hnz b (by simp)
    obtain ⟨hidx, hlen, h256, hslots⟩ := ih hxs
    rw [receive_snoc]
    have hstep : isr_SDI12_data b (receive xs (SDI12_uart_clear_string s0)) =
        { receive xs (SDI12_uart_clear_string s0) with
          SDI12_uart_buf := (receive xs (SDI12_uart_clear_string s0)).SDI12_uart_buf.set
            (xs.length % 256) b,
          SDI12_buf_idx := (xs.length % 256 + 1) % 256 } := by
      simp [isr_SDI12_data, hb, hidx]
    rw [hstep]
    have hmod : xs.length % 256 < 256 := Nat.mod_lt _ (by decide)
    refine ⟨?_, ?_, ?_, ?_⟩
    · simp only [List.length_append, List.length_singleton]
      omega
    · simpa using hlen
    · show ((receive xs (SDI12_uart_clear_string s0)).SDI12_uart_buf.set
          (xs.length % 256) b)[256]? = some NUL
      rw [List.getElem?_set_ne (by omega)]
      exact h256
    · intro j hj
      show ∃ c, ((receive xs (SDI12_uart_clear_string s0)).SDI12_uart_buf.set
          (xs.length % 256) b)[j]? = some c ∧ SlotHolds (xs ++ [b]) j c
      by_cases hjn : xs.length % 256 = j
      · refine ⟨b, ?_, ?_, ?_⟩
        · subst hjn
          rw [List.getElem?_set_self (by omega)]
        · intro k hk hkj hmax
          have hle : xs.length ≤ k := hmax xs.length (by simp) hjn
          have hk2 : k < xs.length + 1 := by simpa using hk
          have : k = xs.length := by omega
          subst this
          simp
        · intro hnone
          exact absurd hjn (hnone xs.length (by simp))
      · obtain ⟨c, hc, hrec, hnul⟩ := hslots j hj
        refine ⟨c, ?_, ?_, ?_⟩
        · rw [List.getElem?_set_ne hjn]
          exact hc
        · intro k hk hkj hmax
          have hk2 : k < xs.length + 1 := by simpa using hk
          have hkne : k ≠ xs.length := fun h => hjn (h ▸ hkj)
          have hklt : k < xs.length := by omega
          rw [List.getElem?_append_left hklt]
          exact hrec k hklt hkj (fun k2 hk2 hk2j => hmax k2 (by simp; omega) hk2j)
        · intro hnone
          exact hnul (fun k hk => hnone k (by simp; omega))

theorem cstr_length_le (l : List Char) (k : Nat) (h : l[k]? = some NUL) :
    (cstr l).length ≤ k := by
  induction l generalizing k with
  | nil => simp at h
  | cons c t ih =>
    cases k with
    | zero =>
      simp only [List.getElem?_cons_zero, Option.some.injEq] at h
      subst h
      simp [cstr, List.takeWhile]
    | succ k =>
      simp only [List.getElem?_cons_succ] at h
      have := ih k h
      unfold cstr at this ⊢
      rw [List.takeWhile_cons]
      split
      · simp only [List.length_cons]
        omega
      · simp

/-- C9: after a clear and `n` arrived non-zero bytes the write cursor is `n mod 256`, each
of the slots 0..255 holds the most recent byte whose arrival number is congruent to the
slot (NUL when there is none), slot 256 of the 257 still holds NUL, so that the snapshot
is a string of at most 256 characters; the clear itself zeroes all 257 slots and the
cursor. -/
theorem C9_receive_buffer (s0 : Sys) (bs : List Char) (hnz : ∀ b ∈ bs, b ≠ NUL) :
    (SDI12_uart_clear_string s0).SDI12_uart_buf = List.replicate 257 NUL ∧
    (SDI12_uart_clear_string s0).SDI12_buf_idx = 0 ∧
    (receive bs (SDI12_uart_clear_string s0)).SDI12_buf_idx = bs.length % 256 ∧
    (receive bs (SDI12_uart_clear_string s0)).SDI12_uart_buf.length = 257 ∧
    (∀ j, j < 256 → ∃ c,
      (receive bs (SDI12_uart_clear_string s0)).SDI12_uart_buf[j]? = some c ∧
      SlotHolds bs j c) ∧
    (receive bs (SDI12_uart_clear_string s0)).SDI12_uart_buf[256]? = some NUL ∧
    (SDI12_uart_get_string (receive bs (SDI12_uart_clear_string s0))).length ≤ 256 := by
  obtain ⟨hidx, hlen, h256, hslots⟩ := receive_after_clear s0 bs hnz
  exact ⟨rfl, rfl, hidx, hlen, hslots, h256, cstr_length_le _ 256 h256⟩

/-- C9 at the bytes `a`, `b` arriving into an empty state. -/
theorem C9_receive_buffer_witness :
    (∀ b ∈ ['a', 'b'], b ≠ NUL) ∧
    (receive ['a', 'b'] (SDI12_uart_clear_string ⟨[], 7, 0, []⟩)).SDI12_buf_idx = 2 % 256 ∧
    (receive ['a', 'b'] (SDI12_uart_clear_string ⟨[], 7, 0, []⟩)).SDI12_uart_buf[256]? =
      some NUL :=
  ⟨by decide,
   (C9_receive_buffer ⟨[], 7, 0, []⟩ ['a', 'b'] (by decide)).2.2.1,
   (C9_receive_buffer ⟨[], 7, 0, []⟩ ['a', 'b'] (by decide)).2.2.2.2.2.1⟩

/-! ## Address change -/

theorem strstr_eq_none_iff (h n : CStr) : strstr h n = none ↔ ¬ n <:+: h := by
  induction h with
  | nil =>
    unfold strstr
    by_cases hn : n = []
    · simp [hn]
    · simp [hn]
  | cons c t ih =>
    unfold strstr
    by_cases hp : n.isPrefixOf (c :: t) = true
    · simp only [hp, if_true]
      have : n <+: c :: t := List.isPrefixOf_iff_prefix.mp hp
      simp [this.isInfix]
    · have hp2 : n.isPrefixOf (c :: t) = false := Bool.eq_false_iff.mpr hp
      simp only [hp2]
      have hnp : ¬ n <+: c :: t := fun h => hp (List.isPrefixOf_iff_prefix.mpr h)
      have : (if false = true then some (c :: t) else strstr t n) = strstr t n := rfl
      rw [this, ih, List.infix_cons_iff]
      simp [hnp]

theorem strstr_isSome_iff (h n : CStr) : (strstr h n).isSome ↔ n <:+: h := by
  rw [← not_iff_not, ← strstr_eq_none_iff]
  cases strstr h n <;> simp

theorem atPoll_succ (line : Line) (s : Sys) (j : Nat) :
    atPoll line s (j + 1) = atPoll line (CyDelay line 5 s) j := by
  induction j with
  | zero => rfl
  | succ j ih =>
    show CyDelay line 5 (atPoll line s (j + 1)) = CyDelay line 5 (atPoll line (CyDelay line 5 s) j)
    rw [ih]

theorem changeAddressLoop_found (line : Line) (new_address value_str : CStr)
    (sensor : SDI12_sensor) (n : Nat) (s : Sys) (v : CStr)
    (h : strstr (SDI12_uart_get_string (CyDelay line 5 s)) value_str = some v) :
    changeAddressLoop line new_address value_str sensor (n + 1) s =
      (1, { sensor with address := new_address }, CyDelay line 5 s) := by
  simp only [changeAddressLoop, h]

theorem changeAddressLoop_next (line : Line) (new_address value_str : CStr)
    (sensor : SDI12_sensor) (n : Nat) (s : Sys)
    (h : strstr (SDI12_uart_get_string (CyDelay line 5 s)) value_str = none) :
    changeAddressLoop line new_address value_str sensor (n + 1) s =
      changeAddressLoop line new_address value_str sensor n (CyDelay line 5 s) := by
  simp only [changeAddressLoop, h]

theorem changeAddressLoop_spec (line : Line) (new_address value_str : CStr)
    (sensor : SDI12_sensor) (n : Nat) (s : Sys) :
    ((∃ j, j < n ∧ value_str <:+: SDI12_uart_get_string (atPoll line s j)) →
      (changeAddressLoop line new_address value_str sensor n s).1 = 1 ∧
      (changeAddressLoop line new_address value_str sensor n s).2.1 =
        { sensor with address := new_address }) ∧
    ((¬ ∃ j, j < n ∧ value_str <:+: SDI12_uart_get_string (atPoll line s j)) →
      (changeAddressLoop line new_address value_str sensor n s).1 = 0 ∧
      (changeAddressLoop line new_address value_str sensor n s).2.1 = sensor) := by
  induction n generalizing s with
  | zero =>
    refine ⟨?_, fun _ => ⟨rfl, rfl⟩⟩
    rintro ⟨j, hj, _⟩
    omega
  | succ n ih =>
    cases hs : strstr (SDI12_uart_get_string (CyDelay line 5 s)) value_str with
    | some v =>
      rw [changeAddressLoop_found line new_address value_str sensor n s v hs]
      refine ⟨fun _ => ⟨rfl, rfl⟩, ?_⟩
      intro hno
      exfalso
      apply hno
      refine ⟨0, by omega, ?_⟩
      rw [← strstr_isSome_iff]
      show (strstr (SDI12_uart_get_string (CyDelay line 5 s)) value_str).isSome = true
      rw [hs]
      rfl
    | none =>
      rw [changeAddressLoop_next line new_address value_str sensor n s hs]
      have h0 : ¬ value_str <:+: SDI12_uart_get_string (CyDelay line 5 s) :=
        (strstr_eq_none_iff _ _).mp hs
      have key : (∃ j, j < n + 1 ∧ value_str <:+: SDI12_uart_get_string (atPoll line s j)) ↔
          ∃ j, j < n ∧
            value_str <:+: SDI12_uart_get_string (atPoll line (CyDelay line 5 s) j) := by
        constructor
        · rintro ⟨j, hj, hin⟩
          cases j with
          | zero => exact absurd hin h0
          | succ j =>
            rw [atPoll_succ] at hin
            exact ⟨j, by omega, hin⟩
        · rintro ⟨j, hj, hin⟩
          refine ⟨j + 1, by omega, ?_⟩
          rw [atPoll_succ]
          exact hin
      rw [key]
      exact ih (CyDelay line 5 s)

/-- C1: `SDI12_change_address` returns 1 exactly when, at one of the 200 polls, the
receive buffer contains the new address followed by CR LF; it then sets the address of
the sensor to the new address and changes nothing else; in every other case it returns 0
and leaves the sensor as it was. -/
theorem C1_change_address (line : Line) (sensor : SDI12_sensor) (new_address : CStr)
    (s : Sys) :
    ((SDI12_change_address line sensor new_address s).1 = 1 ↔
      ∃ j, j < 200 ∧ (new_address ++ crlf) <:+: SDI12_uart_get_string (atPoll line
        (SDI12_send_command line (sensor.address ++ change_addr ++ new_address ++ bang)
          (SDI12_uart_clear_string s)) j)) ∧
    ((SDI12_change_address line sensor new_address s).1 = 1 ∧
        (SDI12_change_address line sensor new_address s).2.1 =
          { sensor with address := new_address } ∨
      (SDI12_change_address line sensor new_address s).1 = 0 ∧
        (SDI12_change_address line sensor new_address s).2.1 = sensor) := by
  have h := changeAddressLoop_spec line new_address (new_address ++ crlf) sensor 200
    (SDI12_send_command line (sensor.address ++ change_addr ++ new_address ++ bang)
      (SDI12_uart_clear_string s))
  show ((changeAddressLoop line new_address (new_address ++ crlf) sensor 200 _).1 = 1 ↔ _) ∧ _
  by_cases hex : ∃ j, j < 200 ∧ (new_address ++ crlf) <:+: SDI12_uart_get_string (atPoll line
        (SDI12_send_command line (sensor.address ++ change_addr ++ new_address ++ bang)
          (SDI12_uart_clear_string s)) j)
  · obtain ⟨h1, h2⟩ := h.1 hex
    exact ⟨⟨fun _ => hex, fun _ => h1⟩, Or.inl ⟨h1, h2⟩⟩
  · obtain ⟨h1, h2⟩ := h.2 hex
    refine ⟨⟨fun h => ?_, fun h => absurd h hex⟩, Or.inr ⟨h1, h2⟩⟩
    rw [h1] at h
    exact absurd h (by decide)

/-! ## Logs -/

theorem block_log (line : Line) (e : Event) (s : Sys) :
    (block line e s).log = s.log ++ [e] := rfl

theorem CyDelay_log (line : Line) (ms : Nat) (s : Sys) :
    (CyDelay line ms s).log = s.log ++ [Event.delay ms] := rfl

theorem send_log (line : Line) (command : CStr) (s : Sys) :
    (SDI12_send_command line command s).log = s.log ++ sendEvents command := by
  simp [SDI12_send_command, SDI12_UART_PutString, CyDelayUs, SDI12_control_reg_Write,
    block_log, sendEvents]

theorem request_log (line : Line) (command : CStr) (s : Sys) :
    (request line command s).log = s.log ++ requestEvents command := by
  unfold request
  rw [send_log]
  show (s.log ++ [Event.clearRx]) ++ sendEvents command = s.log ++ requestEvents command
  simp [requestEvents]

theorem atPoll_log (line : Line) (s : Sys) (j : Nat) :
    (atPoll line s j).log = s.log ++ List.replicate (j + 1) (Event.delay 5) := by
  induction j with
  | zero => rfl
  | succ j ih =>
    show (CyDelay line 5 (atPoll line s j)).log = _
    rw [CyDelay_log, ih, List.append_assoc, ← List.replicate_succ']

theorem sent_append (l1 l2 : List Event) : sent (l1 ++ l2) = sent l1 ++ sent l2 := by
  induction l1 with
  | nil => rfl
  | cons e es ih => cases e <;> simp [sent, ih]

theorem sent_replicate_delay (n ms : Nat) : sent (List.replicate n (Event.delay ms)) = [] := by
  induction n with
  | zero => rfl
  | succ n ih => simp [List.replicate_succ, sent, ih]

theorem sent_requestEvents (command : CStr) : sent (requestEvents command) = [command] := rfl

/-! ## Extraction -/

theorem afterLast_suffix (pat : CStr) (l r : CStr) (h : afterLast pat l = some r) :
    r <:+ l := by
  induction l with
  | nil =>
    unfold afterLast at h
    split at h
    · simp only [Option.some.injEq] at h
      subst h
      exact List.suffix_refl _
    · exact absurd h (by simp)
  | cons c t ih =>
    unfold afterLast at h
    cases hr : afterLast pat t with
    | some r2 =>
      simp only [hr, Option.some.injEq] at h
      subst h
      exact (ih hr).trans (List.suffix_cons c t)
    | none =>
      simp only [hr] at h
      split at h
      · simp only [Option.some.injEq] at h
        subst h
        exact List.drop_suffix _ _
      · exact absurd h (by simp)

theorem beforeFirst_eq_none (pat l : CStr) (h : ¬ pat <:+: l) : beforeFirst pat l = none := by
  induction l with
  | nil =>
    unfold beforeFirst
    have : pat ≠ [] := fun hp => h (hp ▸ List.infix_refl _)
    simp [this]
  | cons c t ih =>
    unfold beforeFirst
    have hnp : pat.isPrefixOf (c :: t) = false :=
      Bool.eq_false_iff.mpr (fun hp => h (List.isPrefixOf_iff_prefix.mp hp).isInfix)
    have ht : ¬ pat <:+: t := fun hi => h (hi.trans (List.suffix_cons c t).isInfix)
    simp [hnp, ih ht]

/-- Without a terminator in the snapshot nothing is extracted. -/
theorem strextract_eq_none (input start stop : CStr) (h : ¬ stop <:+: input) :
    strextract input start stop = none := by
  unfold strextract
  cases hb : afterLast start input with
  | none => rfl
  | some body =>
    simp only []
    exact beforeFirst_eq_none stop body
      (fun hi => h (hi.trans (afterLast_suffix start input body hb).isInfix))

/-! ## Wait loops -/

theorem waitLoop_found (line : Line) (value_str : CStr) (n : Nat) (s : Sys) (v : CStr)
    (h : strextract (SDI12_uart_get_string (CyDelay line 5 s)) bang crlf = some v) :
    waitLoop line value_str (n + 1) s = (CyDelay line 5 s, v) := by
  simp only [waitLoop, h]

theorem waitLoop_next (line : Line) (value_str : CStr) (n : Nat) (s : Sys)
    (h : strextract (SDI12_uart_get_string (CyDelay line 5 s)) bang crlf = none) :
    waitLoop line value_str (n + 1) s = waitLoop line value_str n (CyDelay line 5 s) := by
  simp only [waitLoop, h]

theorem infoLoop_found (line : Line) (sensor : SDI12_sensor) (n : Nat) (s : Sys) (v : CStr)
    (h : strextract (SDI12_uart_get_string (CyDelay line 5 s)) bang crlf = some v) :
    infoLoop line sensor (n + 1) s = (1, parseInfo sensor v, CyDelay line 5 s) := by
  simp only [infoLoop, h]

theorem infoLoop_next (line : Line) (sensor : SDI12_sensor) (n : Nat) (s : Sys)
    (h : strextract (SDI12_uart_get_string (CyDelay line 5 s)) bang crlf = none) :
    infoLoop line sensor (n + 1) s = infoLoop line sensor n (CyDelay line 5 s) := by
  simp only [infoLoop, h]

/-- A wait loop that extracts nothing at any of its `n + 1` polls ends in the state of
its last poll with `value_str` untouched. -/
theorem waitLoop_timeout (line : Line) (value_str : CStr) (n : Nat) (s : Sys)
    (h : ∀ j, j < n + 1 →
      strextract (SDI12_uart_get_string (atPoll line s j)) bang crlf = none) :
    waitLoop line value_str (n + 1) s = (atPoll line s n, value_str) := by
  induction n generalizing s with
  | zero =>
    rw [waitLoop_next line value_str 0 s (h 0 (by omega))]
    rfl
  | succ n ih =>
    rw [waitLoop_next line value_str (n + 1) s (h 0 (by omega)), atPoll_succ]
    apply ih
    intro j hj
    rw [← atPoll_succ]
    exact h (j + 1) (by omega)

theorem infoLoop_timeout (line : Line) (sensor : SDI12_sensor) (n : Nat) (s : Sys)
    (h : ∀ j, j < n + 1 →
      strextract (SDI12_uart_get_string (atPoll line s j)) bang crlf = none) :
    infoLoop line sensor (n + 1) s = (0, sensor, atPoll line s n) := by
  induction n generalizing s with
  | zero =>
    rw [infoLoop_next line sensor 0 s (h 0 (by omega))]
    rfl
  | succ n ih =>
    rw [infoLoop_next line sensor (n + 1) s (h 0 (by omega)), atPoll_succ]
    apply ih
    intro j hj
    rw [← atPoll_succ]
    exact h (j + 1) (by omega)

theorem changeAddressLoop_timeout (line : Line) (new_address value_str : CStr)
    (sensor : SDI12_sensor) (n : Nat) (s : Sys)
    (h : ∀ j, j < n + 1 → strstr (SDI12_uart_get_string (atPoll line s j)) value_str = none) :
    changeAddressLoop line new_address value_str sensor (n + 1) s =
      (0, sensor, atPoll line s n) := by
  induction n generalizing s with
  | zero =>
    rw [changeAddressLoop_next line new_address value_str sensor 0 s (h 0 (by omega))]
    rfl
  | succ n ih =>
    rw [changeAddressLoop_next line new_address value_str sensor (n + 1) s (h 0 (by omega)),
      atPoll_succ]
    apply ih
    intro j hj
    rw [← atPoll_succ]
    exact h (j + 1) (by omega)

/-- A wait loop only adds polling cycles to the log, at most as many as it may run. -/
theorem waitLoop_log (line : Line) (value_str : CStr) (n : Nat) (s : Sys) :
    ∃ k, k ≤ n ∧
      (waitLoop line value_str n s).1.log = s.log ++ List.replicate k (Event.delay 5) := by
  induction n generalizing s with
  | zero => exact ⟨0, le_refl _, by simp [waitLoop]⟩
  | succ n ih =>
    cases hs : strextract (SDI12_uart_get_string (CyDelay line 5 s)) bang crlf with
    | some v =>
      rw [waitLoop_found line value_str n s v hs]
      exact ⟨1, by omega, rfl⟩
    | none =>
      rw [waitLoop_next line value_str n s hs]
      obtain ⟨k, hk, hlog⟩ := ih (CyDelay line 5 s)
      refine ⟨k + 1, by omega, ?_⟩
      rw [hlog, CyDelay_log, List.append_assoc]
      rfl

theorem infoLoop_log (line : Line) (sensor : SDI12_sensor) (n : Nat) (s : Sys) :
    ∃ k, k ≤ n ∧
      (infoLoop line sensor n s).2.2.log = s.log ++ List.replicate k (Event.delay 5) := by
  induction n generalizing s with
  | zero => exact ⟨0, le_refl _, by simp [infoLoop]⟩
  | succ n ih =>
    cases hs : strextract (SDI12_uart_get_string (CyDelay line 5 s)) bang crlf with
    | some v =>
      rw [infoLoop_found line sensor n s v hs]
      exact ⟨1, by omega, rfl⟩
    | none =>
      rw [infoLoop_next line sensor n s hs]
      obtain ⟨k, hk, hlog⟩ := ih (CyDelay line 5 s)
      refine ⟨k + 1, by omega, ?_⟩
      rw [hlog, CyDelay_log, List.append_assoc]
      rfl

theorem changeAddressLoop_log (line : Line) (new_address value_str : CStr)
    (sensor : SDI12_sensor) (n : Nat) (s : Sys) :
    ∃ k, k ≤ n ∧
      (changeAddressLoop line new_address value_str sensor n s).2.2.log =
        s.log ++ List.replicate k (Event.delay 5) := by
  induction n generalizing s with
  | zero => exact ⟨0, le_refl _, by simp [changeAddressLoop]⟩
  | succ n ih =>
    cases hs : strstr (SDI12_uart_get_string (CyDelay line 5 s)) value_str with
    | some v =>
      rw [changeAddressLoop_found line new_address value_str sensor n s v hs]
      exact ⟨1, by omega, rfl⟩
    | none =>
      rw [changeAddressLoop_next line new_address value_str sensor n s hs]
      obtain ⟨k, hk, hlog⟩ := ih (CyDelay line 5 s)
      refine ⟨k + 1, by omega, ?_⟩
      rw [hlog, CyDelay_log, List.append_assoc]
      rfl

/-! ## The loops over `nvars` -/

theorem sentinelLoop_diverges (nvars : Nat) (h : 256 ≤ nvars) (fuel i : Nat)
    (values : Nat → Num) (hi : i < 256) : sentinelLoop nvars fuel i values = none := by
  induction fuel generalizing i values with
  | zero => rfl
  | succ fuel ih =>
    unfold sentinelLoop
    rw [if_pos (by omega)]
    exact ih _ _ (Nat.mod_lt _ (by decide))

theorem sentinelLoop_spec (nvars : Nat) (h : nvars < 256) (fuel i : Nat)
    (values : Nat → Num) (hi : i ≤ nvars) (hf : nvars - i < fuel) :
    sentinelLoop nvars fuel i values =
      some (fun k => if i ≤ k ∧ k < nvars then sentinel else values k) := by
  induction fuel generalizing i values with
  | zero => omega
  | succ fuel ih =>
    unfold sentinelLoop
    by_cases hlt : i < nvars
    · rw [if_pos hlt, Nat.mod_eq_of_lt (by omega), ih _ _ (by omega) (by omega)]
      congr 1
      funext k
      by_cases hk : k = i
      · subst hk
        simp [hlt]
      · rw [Function.update_noteq hk]
        by_cases h1 : i ≤ k ∧ k < nvars
        · rw [if_pos h1, if_pos ⟨by omega, h1.2⟩]
        · rw [if_neg h1, if_neg (by omega)]
    · rw [if_neg hlt]
      congr 1
      funext k
      rw [if_neg (by omega)]

theorem parseLoop_diverges (nvars : Nat) (h : 256 ≤ nvars) (fuel i : Nat) (ptr_end : CStr)
    (values : Nat → Num) (hi : i < 256) : parseLoop nvars fuel i ptr_end values = none := by
  induction fuel generalizing i ptr_end values with
  | zero => rfl
  | succ fuel ih =>
    unfold parseLoop
    rw [if_pos (by omega)]
    exact ih _ _ _ (Nat.mod_lt _ (by decide))

/-- The parse loop stores only below `nvars`. -/
theorem parseLoop_frame (nvars : Nat) (h : nvars < 256) (fuel i : Nat) (ptr_end : CStr)
    (values : Nat → Num) (hi : i ≤ nvars) (r : (Nat → Num) × CStr)
    (hr : parseLoop nvars fuel i ptr_end values = some r) :
    ∀ k, nvars ≤ k → r.1 k = values k := by
  induction fuel generalizing i ptr_end values with
  | zero => exact absurd hr (by simp [parseLoop])
  | succ fuel ih =>
    unfold parseLoop at hr
    by_cases hlt : i < nvars
    · rw [if_pos hlt, Nat.mod_eq_of_lt (by omega)] at hr
      intro k hk
      rw [ih _ _ _ (by omega) hr k hk, Function.update_noteq (by omega)]
    · rw [if_neg hlt] at hr
      simp only [Option.some.injEq] at hr
      subst hr
      intro k _
      rfl

/-! ## Measurement -/

/-- The sign test of step 4: a result 0 comes from the sentinel branch only. -/
theorem parseMeasurement_zero (sensor : SDI12_sensor) (value_str : CStr)
    (r : Nat × SDI12_sensor) (h : parseMeasurement sensor value_str = some r) (h0 : r.1 = 0) :
    strstr value_str "+".toList = none ∧ strstr value_str "-".toList = none ∧
    ∃ v, sentinelLoop sensor.nvars 257 0 sensor.values = some v ∧
      r = (0, { sensor with values := v }) := by
  unfold parseMeasurement at h
  cases hp : strstr value_str "+".toList with
  | some x =>
    simp only [hp, Option.map_eq_some'] at h
    obtain ⟨a, _, ha⟩ := h
    rw [← ha] at h0
    exact absurd h0 Nat.one_ne_zero
  | none =>
    cases hm : strstr value_str "-".toList with
    | some x =>
      simp only [hp, hm, Option.map_eq_some'] at h
      obtain ⟨a, _, ha⟩ := h
      rw [← ha] at h0
      exact absurd h0 Nat.one_ne_zero
    | none =>
      simp only [hp, hm, Option.map_eq_some'] at h
      obtain ⟨v, hv, hr⟩ := h
      exact ⟨rfl, rfl, v, hv, hr.symm⟩

theorem take_measurement_some (line : Line) (sensor : SDI12_sensor) (s : Sys)
    (r : Nat × SDI12_sensor × Sys) (h : SDI12_take_measurement line sensor s = some r) :
    ∃ d, (strtod (delayField sensor (measurementAck line sensor s).2)).1.toUInt32 = some d ∧
      ∃ p, parseMeasurement sensor (measurementData line sensor (d * 1000 % 2 ^ 32)
          (measurementAck line sensor s).1).2 = some p ∧
        r = (p.1, p.2, (measurementData line sensor (d * 1000 % 2 ^ 32)
          (measurementAck line sensor s).1).1) := by
  unfold SDI12_take_measurement at h
  cases hd : (strtod (delayField sensor (measurementAck line sensor s).2)).1.toUInt32 with
  | none =>
    simp only [hd] at h
    exact absurd h (by simp)
  | some d =>
    simp only [hd, Option.map_eq_some'] at h
    obtain ⟨p, hp, hr⟩ := h
    exact ⟨d, rfl, p, hp, hr.symm⟩

theorem take_measurement_eq (line : Line) (sensor : SDI12_sensor) (s : Sys) (d : Nat)
    (hd : (strtod (delayField sensor (measurementAck line sensor s).2)).1.toUInt32 = some d) :
    SDI12_take_measurement line sensor s =
      (parseMeasurement sensor (measurementData line sensor (d * 1000 % 2 ^ 32)
          (measurementAck line sensor s).1).2).map
        (fun p => (p.1, p.2, (measurementData line sensor (d * 1000 % 2 ^ 32)
          (measurementAck line sensor s).1).1)) := by
  unfold SDI12_take_measurement
  simp only [hd]

/-- C2: whenever `SDI12_take_measurement` returns 0, every `values[i]` with `i < nvars`
holds the sentinel -9999.0 afterwards, and `nvars` is what it was. -/
theorem C2_failed_read_sentinel (line : Line) (sensor : SDI12_sensor) (s : Sys)
    (r : Nat × SDI12_sensor × Sys) (h : SDI12_take_measurement line sensor s = some r)
    (h0 : r.1 = 0) :
    r.2.1.nvars = sensor.nvars ∧ ∀ i, i < sensor.nvars → r.2.1.values i = sentinel := by
  obtain ⟨d, _, p, hp, hr⟩ := take_measurement_some line sensor s r h
  subst hr
  obtain ⟨_, _, v, hv, hpv⟩ := parseMeasurement_zero sensor _ p hp h0
  subst hpv
  by_cases hn : sensor.nvars < 256
  · rw [sentinelLoop_spec sensor.nvars hn 257 0 sensor.values (by omega) (by omega)] at hv
    simp only [Option.some.injEq] at hv
    subst hv
    refine ⟨rfl, fun i hi => ?_⟩
    show (if 0 ≤ i ∧ i < sensor.nvars then sentinel else sensor.values i) = sentinel
    rw [if_pos ⟨by omega, hi⟩]
  · rw [sentinelLoop_diverges sensor.nvars (by omega) 257 0 sensor.values (by omega)] at hv
    exact absurd hv (by simp)

/-- C2 on the quiet line: the read fails and the three slots hold the sentinel. -/
theorem C2_failed_read_sentinel_witness :
    ∃ r, SDI12_take_measurement quietLine (sensorA 3) sys0 = some r ∧ r.1 = 0 ∧
      (r.2.1.nvars = (sensorA 3).nvars ∧
        ∀ i, i < (sensorA 3).nvars → r.2.1.values i = sentinel) := by
  have hs : (SDI12_take_measurement quietLine (sensorA 3) sys0).isSome = true := by decide
  obtain ⟨r, hr⟩ := Option.isSome_iff_exists.mp hs
  have h1 : (SDI12_take_measurement quietLine (sensorA 3) sys0).map (fun x => x.1) = some 0 := by
    decide
  have h0 : r.1 = 0 := by
    rw [hr] at h1
    simpa using h1
  exact ⟨r, hr, h0, C2_failed_read_sentinel quietLine (sensorA 3) sys0 r hr h0⟩

/-! ## Timeouts -/

theorem delayField_nil (sensor : SDI12_sensor) : delayField sensor [] = [] := by
  unfold delayField
  rw [List.drop_nil]
  decide

theorem parseMeasurement_nil (sensor : SDI12_sensor) (h : sensor.nvars < 256) :
    parseMeasurement sensor [] =
      some (0, { sensor with values := fun k =>
        if 0 ≤ k ∧ k < sensor.nvars then sentinel else sensor.values k }) := by
  unfold parseMeasurement
  have h1 : strstr [] "+".toList = none := by decide
  have h2 : strstr [] "-".toList = none := by decide
  simp only [h1, h2]
  rw [sentinelLoop_spec sensor.nvars h 257 0 sensor.values (by omega) (by omega)]
  rfl

theorem measurementAck_timeout (line : Line) (sensor : SDI12_sensor) (s : Sys)
    (h : ∀ j, j < 200 → ¬ crlf <:+: SDI12_uart_get_string
      (atPoll line (request line (sensor.address ++ take_measurement ++ bang) s) j)) :
    measurementAck line sensor s =
      (atPoll line (request line (sensor.address ++ take_measurement ++ bang) s) 199, []) := by
  show waitLoop line [] (199 + 1) (request line _ s) = _
  exact waitLoop_timeout line [] 199 _ (fun j hj => strextract_eq_none _ _ _ (h j hj))

theorem measurementData_timeout (line : Line) (sensor : SDI12_sensor) (ms : Nat) (s : Sys)
    (h : ∀ j, j < 200 → ¬ crlf <:+: SDI12_uart_get_string
      (atPoll line (request line (sensor.address ++ read_measurement ++ bang)
        (CyDelay line ms s)) j)) :
    measurementData line sensor ms s =
      (atPoll line (request line (sensor.address ++ read_measurement ++ bang)
        (CyDelay line ms s)) 199, []) := by
  show waitLoop line [] (199 + 1) (request line _ (CyDelay line ms s)) = _
  exact waitLoop_timeout line [] 199 _ (fun j hj => strextract_eq_none _ _ _ (h j hj))

/-- C3 (as amended): when the receive buffer holds no CR LF at any inspection,
`SDI12_change_address` and `SDI12_info` return 0 after exactly 200 polling cycles of 5 ms;
`SDI12_take_measurement` (with `nvars` an 8-bit count) returns 0 after two such waits, 200
cycles for the acknowledgement and 200 for the data with a sleep of 0 ms between them;
`SDI12_is_active` returns 0 after one delay of 1000 ms and a single inspection. -/
theorem C3_timeouts (line : Line) (sensor : SDI12_sensor) (new_address : CStr) (s : Sys) :
    (¬ crlf <:+: SDI12_uart_get_string
        (CyDelay line 1000 (request line (sensor.address ++ ack_active ++ bang) s)) →
      (SDI12_is_active line sensor s).1 = 0 ∧
      (SDI12_is_active line sensor s).2.log =
        s.log ++ requestEvents (sensor.address ++ ack_active ++ bang) ++ [Event.delay 1000]) ∧
    ((∀ j, j < 200 → ¬ crlf <:+: SDI12_uart_get_string (atPoll line
        (request line (sensor.address ++ change_addr ++ new_address ++ bang) s) j)) →
      (SDI12_change_address line sensor new_address s).1 = 0 ∧
      (SDI12_change_address line sensor new_address s).2.2.log =
        s.log ++ requestEvents (sensor.address ++ change_addr ++ new_address ++ bang) ++
          List.replicate 200 (Event.delay 5)) ∧
    ((∀ j, j < 200 → ¬ crlf <:+: SDI12_uart_get_string (atPoll line
        (request line (sensor.address ++ info ++ bang) s) j)) →
      (SDI12_info line sensor s).1 = 0 ∧
      (SDI12_info line sensor s).2.2.log =
        s.log ++ requestEvents (sensor.address ++ info ++ bang) ++
          List.replicate 200 (Event.delay 5)) ∧
    (sensor.nvars < 256 →
      (∀ j, j < 200 → ¬ crlf <:+: SDI12_uart_get_string (atPoll line
        (request line (sensor.address ++ take_measurement ++ bang) s) j)) →
      (∀ j, j < 200 → ¬ crlf <:+: SDI12_uart_get_string (atPoll line
        (request line (sensor.address ++ read_measurement ++ bang)
          (CyDelay line 0 (atPoll line
            (request line (sensor.address ++ take_measurement ++ bang) s) 199))) j)) →
      ∃ r, SDI12_take_measurement line sensor s = some r ∧ r.1 = 0 ∧
        r.2.2.log =
          s.log ++ requestEvents (sensor.address ++ take_measurement ++ bang) ++
            List.replicate 200 (Event.delay 5) ++ [Event.delay 0] ++
            requestEvents (sensor.address ++ read_measurement ++ bang) ++
            List.replicate 200 (Event.delay 5)) := by
  refine ⟨?_, ?_, ?_, ?_⟩
  · intro h
    have hx := strextract_eq_none _ bang crlf h
    have : SDI12_is_active line sensor s =
        (0, CyDelay line 1000 (request line (sensor.address ++ ack_active ++ bang) s)) := by
      simp only [SDI12_is_active]
      rw [show SDI12_send_command line (sensor.address ++ ack_active ++ bang)
        (SDI12_uart_clear_string s) = request line (sensor.address ++ ack_active ++ bang) s
        from rfl, hx]
    rw [this]
    exact ⟨rfl, by rw [CyDelay_log, request_log]⟩
  · intro h
    have hx : ∀ j, j < 199 + 1 → strstr (SDI12_uart_get_string (atPoll line
        (request line (sensor.address ++ change_addr ++ new_address ++ bang) s) j))
        (new_address ++ crlf) = none := by
      intro j hj
      rw [strstr_eq_none_iff]
      exact fun hi => h j hj ((List.infix_append' new_address crlf []).trans
        (by simpa using hi))
    have : SDI12_change_address line sensor new_address s = (0, sensor, atPoll line
        (request line (sensor.address ++ change_addr ++ new_address ++ bang) s) 199) :=
      changeAddressLoop_timeout line new_address (new_address ++ crlf) sensor 199 _ hx
    rw [this]
    exact ⟨rfl, by rw [atPoll_log, request_log]⟩
  · intro h
    have : SDI12_info line sensor s = (0, sensor, atPoll line
        (request line (sensor.address ++ info ++ bang) s) 199) :=
      infoLoop_timeout line sensor 199 _ (fun j hj => strextract_eq_none _ _ _ (h j hj))
    rw [this]
    exact ⟨rfl, by rw [atPoll_log, request_log]⟩
  · intro hn hM hD
    have hack := measurementAck_timeout line sensor s hM
    have hd : (strtod (delayField sensor (measurementAck line sensor s).2)).1.toUInt32 =
        some 0 := by
      rw [hack, delayField_nil]
      decide
    have hdata := measurementData_timeout line sensor 0 _ hD
    rw [take_measurement_eq line sensor s 0 hd, hack]
    simp only [Nat.zero_mul, Nat.zero_mod]
    rw [hdata, parseMeasurement_nil sensor hn]
    refine ⟨_, rfl, rfl, ?_⟩
    simp only [Option.map_some']
    rw [atPoll_log, request_log, CyDelay_log, atPoll_log, request_log]

theorem atPoll_quiet_buf (s : Sys) (j : Nat) :
    (atPoll quietLine s j).SDI12_uart_buf = s.SDI12_uart_buf := by
  induction j with
  | zero => rfl
  | succ j ih =>
    show (CyDelay quietLine 5 (atPoll quietLine s j)).SDI12_uart_buf = _
    rw [← ih]
    rfl

theorem quiet_poll_empty (command : CStr) (s : Sys) (j : Nat) :
    ¬ crlf <:+: SDI12_uart_get_string (atPoll quietLine (request quietLine command s) j) := by
  have h : SDI12_uart_get_string (atPoll quietLine (request quietLine command s) j) = [] := by
    unfold SDI12_uart_get_string
    rw [atPoll_quiet_buf]
    show cstr (List.replicate 257 NUL) = []
    decide
  rw [h]
  decide

/-- C3 (as amended) on the quiet line, for the sensor at `a` with three values. -/
theorem C3_timeouts_witness :
    (SDI12_is_active quietLine (sensorA 3) sys0).1 = 0 ∧
    (SDI12_change_address quietLine (sensorA 3) ['b'] sys0).2.2.log =
      sys0.log ++ requestEvents ((sensorA 3).address ++ change_addr ++ ['b'] ++ bang) ++
        List.replicate 200 (Event.delay 5) ∧
    (SDI12_info quietLine (sensorA 3) sys0).1 = 0 ∧
    ∃ r, SDI12_take_measurement quietLine (sensorA 3) sys0 = some r ∧ r.1 = 0 ∧
      r.2.2.log =
        sys0.log ++ requestEvents ((sensorA 3).address ++ take_measurement ++ bang) ++
          List.replicate 200 (Event.delay 5) ++ [Event.delay 0] ++
          requestEvents ((sensorA 3).address ++ read_measurement ++ bang) ++
          List.replicate 200 (Event.delay 5) :=
  ⟨((C3_timeouts quietLine (sensorA 3) ['b'] sys0).1 (by decide)).1,
   ((C3_timeouts quietLine (sensorA 3) ['b'] sys0).2.1
      (fun j _ => quiet_poll_empty _ sys0 j)).2,
   ((C3_timeouts quietLine (sensorA 3) ['b'] sys0).2.2.1
      (fun j _ => quiet_poll_empty _ sys0 j)).1,
   (C3_timeouts quietLine (sensorA 3) ['b'] sys0).2.2.2 (by decide)
      (fun j _ => quiet_poll_empty _ sys0 j) (fun j _ => quiet_poll_empty _ _ j)⟩

/-- C3 fails as stated: on a line where nothing is ever received, `SDI12_is_active` returns
0 without a single 5 ms polling cycle (its log is the request and one delay of 1000 ms),
and `SDI12_take_measurement` returns 0 after 400 polling cycles, not 200. -/
theorem C3_counterexample :
    (∀ k, quietLine k = []) ∧
    (SDI12_is_active quietLine (sensorA 3) sys0).1 = 0 ∧
    (SDI12_is_active quietLine (sensorA 3) sys0).2.log =
      requestEvents "a!".toList ++ [Event.delay 1000] ∧
    pollCount (SDI12_is_active quietLine (sensorA 3) sys0).2.log = 0 ∧
    (SDI12_take_measurement quietLine (sensorA 3) sys0).map
      (fun r => (r.1, pollCount r.2.2.log)) = some (0, 400) :=
  ⟨fun _ => rfl, by decide, by decide, by decide, by decide⟩

/-! ## Command strings -/

theorem is_active_log (line : Line) (sensor : SDI12_sensor) (s : Sys) :
    (SDI12_is_active line sensor s).2.log =
      s.log ++ requestEvents (sensor.address ++ ack_active ++ bang) ++ [Event.delay 1000] := by
  have h : (SDI12_is_active line sensor s).2 =
      CyDelay line 1000 (request line (sensor.address ++ ack_active ++ bang) s) := by
    simp only [SDI12_is_active]
    split <;> rfl
  rw [h, CyDelay_log, request_log]

theorem sent_after_request (l : List Event) (command : CStr) (k : Nat) :
    sent (l ++ requestEvents command ++ List.replicate k (Event.delay 5)) =
      sent l ++ [command] := by
  rw [sent_append, sent_append, sent_replicate_delay, sent_requestEvents, List.append_nil]

theorem measurementAck_log (line : Line) (sensor : SDI12_sensor) (s : Sys) :
    ∃ k, k ≤ 200 ∧ (measurementAck line sensor s).1.log =
      s.log ++ requestEvents (sensor.address ++ take_measurement ++ bang) ++
        List.replicate k (Event.delay 5) := by
  obtain ⟨k, hk, h⟩ := waitLoop_log line (clear_str []) 200
    (request line (sensor.address ++ take_measurement ++ bang) s)
  exact ⟨k, hk, by rw [← request_log]; exact h⟩

theorem measurementData_log (line : Line) (sensor : SDI12_sensor) (ms : Nat) (s : Sys) :
    ∃ k, k ≤ 200 ∧ (measurementData line sensor ms s).1.log =
      s.log ++ [Event.delay ms] ++
        requestEvents (sensor.address ++ read_measurement ++ bang) ++
        List.replicate k (Event.delay 5) := by
  obtain ⟨k, hk, h⟩ := waitLoop_log line (clear_str []) 200
    (request line (sensor.address ++ read_measurement ++ bang) (CyDelay line ms s))
  exact ⟨k, hk, by rw [← CyDelay_log line ms s, ← request_log]; exact h⟩

theorem framed_cons (c : Char) (body : CStr) : Framed c (c :: body ++ bang) := by
  refine ⟨rfl, ?_⟩
  show (c :: (body ++ ['!'])).getLast? = some '!'
  rw [← List.cons_append, List.getLast?_append]
  rfl

/-- C8: for a sensor whose address is the valid character `c`, every operation writes to
the bus exactly the command strings `c!` (check active), `cA<new>!` (change address),
`cI!` (info), `cM!` and then `cD0!` (take measurement); each begins with `c` and ends
with `!`. -/
theorem C8_command_strings (line : Line) (sensor : SDI12_sensor) (c : Char)
    (new_address : CStr) (s : Sys) (_hc : validAddress c = true)
    (haddr : sensor.address = [c]) :
    sent (SDI12_is_active line sensor s).2.log = sent s.log ++ [[c, '!']] ∧
    sent (SDI12_change_address line sensor new_address s).2.2.log =
      sent s.log ++ [c :: 'A' :: new_address ++ ['!']] ∧
    sent (SDI12_info line sensor s).2.2.log = sent s.log ++ [[c, 'I', '!']] ∧
    sent (measurementAck line sensor s).1.log = sent s.log ++ [[c, 'M', '!']] ∧
    (∀ r, SDI12_take_measurement line sensor s = some r →
      sent r.2.2.log = sent s.log ++ [[c, 'M', '!'], [c, 'D', '0', '!']]) ∧
    Framed c [c, '!'] ∧ Framed c (c :: 'A' :: new_address ++ ['!']) ∧
    Framed c [c, 'I', '!'] ∧ Framed c [c, 'M', '!'] ∧ Framed c [c, 'D', '0', '!'] := by
  refine ⟨?_, ?_, ?_, ?_, ?_, framed_cons c [], framed_cons c ('A' :: new_address),
    framed_cons c ['I'], framed_cons c ['M'], framed_cons c ['D', '0']⟩
  · rw [is_active_log, haddr, sent_append, sent_append, sent_requestEvents]
    show sent s.log ++ [[c, '!']] ++ [] = _
    rw [List.append_nil]
  · obtain ⟨k, _, h⟩ := changeAddressLoop_log line new_address (new_address ++ crlf) sensor 200
      (request line (sensor.address ++ change_addr ++ new_address ++ bang) s)
    have h2 : (SDI12_change_address line sensor new_address s).2.2.log =
        s.log ++ requestEvents (sensor.address ++ change_addr ++ new_address ++ bang) ++
          List.replicate k (Event.delay 5) := by
      rw [← request_log]
      exact h
    rw [h2, sent_after_request, haddr]
    rfl
  · obtain ⟨k, _, h⟩ := infoLoop_log line sensor 200
      (request line (sensor.address ++ info ++ bang) s)
    have h2 : (SDI12_info line sensor s).2.2.log =
        s.log ++ requestEvents (sensor.address ++ info ++ bang) ++
          List.replicate k (Event.delay 5) := by
      rw [← request_log]
      exact h
    rw [h2, sent_after_request, haddr]
    rfl
  · obtain ⟨k, _, h⟩ := measurementAck_log line sensor s
    rw [h, sent_after_request, haddr]
    rfl
  · intro r hr
    obtain ⟨d, _, p, _, hrp⟩ := take_measurement_some line sensor s r hr
    subst hrp
    obtain ⟨k1, _, h1⟩ := measurementAck_log line sensor s
    obtain ⟨k2, _, h2⟩ := measurementData_log line sensor (d * 1000 % 2 ^ 32)
      (measurementAck line sensor s).1
    show sent (measurementData line sensor (d * 1000 % 2 ^ 32)
      (measurementAck line sensor s).1).1.log = _
    rw [h2, sent_after_request, sent_append, h1, sent_after_request, haddr]
    show sent s.log ++ [[c, 'M', '!']] ++ [] ++ [[c, 'D', '0', '!']] = _
    simp

/-- C8 for the sensor at address `a` on the line that answers at once. -/
theorem C8_command_strings_witness :
    validAddress 'a' = true ∧ (sensorA 2).address = ['a'] ∧
    sent (SDI12_change_address promptLine (sensorA 2) ['b'] sys0).2.2.log =
      sent sys0.log ++ ['a' :: 'A' :: ['b'] ++ ['!']] ∧
    (∀ r, SDI12_take_measurement promptLine (sensorA 2) sys0 = some r →
      sent r.2.2.log = sent sys0.log ++ [['a', 'M', '!'], ['a', 'D', '0', '!']]) ∧
    (SDI12_take_measurement promptLine (sensorA 2) sys0).isSome = true :=
  ⟨by decide, rfl,
   (C8_command_strings promptLine (sensorA 2) 'a' ['b'] sys0 (by decide) rfl).2.1,
   (C8_command_strings promptLine (sensorA 2) 'a' ['b'] sys0 (by decide) rfl).2.2.2.2.1,
   by decide⟩

/-! ## `strtod` on decimal tokens -/

theorem isdigit_cases (c : Char) (h : isdigit c = true) :
    c ∈ ['0', '1', '2', '3', '4', '5', '6', '7', '8', '9'] := by
  unfold isdigit at h
  have h2 : 48 ≤ c.toNat ∧ c.toNat ≤ 57 := by simpa using h
  have hc : c = Char.ofNat c.toNat := (Char.ofNat_toNat c).symm
  obtain ⟨n, hn⟩ : ∃ n, c.toNat = n := ⟨_, rfl⟩
  rw [hn] at h2 hc
  obtain ⟨h3, h4⟩ := h2
  interval_cases n <;> (subst hc; decide)

/-- What the scanners need to know about a decimal digit. -/
theorem digit_facts (c : Char) (h : isdigit c = true) :
    isspace c = false ∧ c ≠ '+' ∧ c ≠ '-' ∧ c ≠ '.' ∧ c ≠ NUL ∧ c ≠ 'x' ∧ c ≠ 'X' ∧
    c.toLower ≠ 'i' ∧ c.toLower ≠ 'n' := by
  have := isdigit_cases c h
  simp only [List.mem_cons, List.mem_singleton, List.not_mem_nil, or_false] at this
  rcases this with h | h | h | h | h | h | h | h | h | h <;> (subst h; decide)

theorem scanDigits_append (ds rest : List Char) (acc n : Nat)
    (hds : ∀ c ∈ ds, isdigit c = true)
    (hrest : ∀ c t, rest = c :: t → isdigit c = false) :
    scanDigits 10 isdigit digitVal (ds ++ rest) acc n =
      (ds.foldl (fun a c => a * 10 + digitVal c) acc, n + ds.length, rest) := by
  induction ds generalizing acc n with
  | nil =>
    cases rest with
    | nil => rfl
    | cons c t =>
      simp only [List.nil_append, scanDigits, hrest c t rfl]
      rfl
  | cons d ds ih =>
    have hd : isdigit d = true := hds d (by simp)
    have hstep : scanDigits 10 isdigit digitVal (d :: (ds ++ rest)) acc n =
        scanDigits 10 isdigit digitVal (ds ++ rest) (acc * 10 + digitVal d) (n + 1) := by
      rw [scanDigits, if_pos hd]
    rw [List.cons_append, hstep, ih _ _ (fun c hc => hds c (by simp [hc]))]
    simp only [List.foldl_cons, List.length_cons]
    congr 2
    omega

theorem decVal_append (a b : List Char) :
    b.foldl (fun x c => x * 10 + digitVal c) (decVal a) = decVal (a ++ b) := by
  simp [decVal, List.foldl_append]

theorem signOrEnd_not_digit (rest : List Char) (h : SignOrEnd rest) :
    ∀ c t, rest = c :: t → isdigit c = false := by
  intro c t hc
  rcases h with h | ⟨u, h | h⟩
  · rw [h] at hc
    exact absurd hc (by simp)
  · rw [h] at hc
    simp only [List.cons.injEq] at hc
    rw [← hc.1]
    decide
  · rw [h] at hc
    simp only [List.cons.injEq] at hc
    rw [← hc.1]
    decide

theorem scanExponent_signOrEnd (marker : Char → Bool) (rest : List Char) (h : SignOrEnd rest)
    (hp : marker '+' = false) (hm : marker '-' = false) :
    scanExponent marker rest = (0, rest) := by
  rcases h with h | ⟨u, h | h⟩
  · subst h
    rfl
  · subst h
    simp [scanExponent, hp]
  · subst h
    simp [scanExponent, hm]

/-- The characters of a token after its sign. -/
theorem token_text_eq (t : Token) :
    t.text = (if t.neg then '-' else '+') ::
      (t.intDigits ++ (if t.point then '.' :: t.fracDigits else [])) := rfl

theorem scanMantissa_token (t : Token) (h : t.WellFormed) (rest : List Char)
    (hrest : SignOrEnd rest) :
    scanMantissa 10 isdigit digitVal
        (t.intDigits ++ (if t.point then '.' :: t.fracDigits else []) ++ rest) =
      (decVal (t.intDigits ++ t.fracDigits), t.intDigits.length + t.fracDigits.length,
        t.fracDigits.length, rest) := by
  obtain ⟨hi, hf, hpos, hnp⟩ := h
  unfold scanMantissa
  cases hpt : t.point with
  | false =>
    have hfe : t.fracDigits = [] := hnp hpt
    simp only [Bool.false_eq_true, if_false, List.append_nil]
    rw [scanDigits_append _ _ _ _ hi (signOrEnd_not_digit rest hrest)]
    rw [hfe, List.append_nil]
    rcases hrest with h | ⟨u, h | h⟩ <;> subst h <;> simp [decVal]
  | true =>
    simp only [if_true, List.append_assoc, List.cons_append]
    rw [scanDigits_append _ _ _ _ hi (by
      intro c u hc
      simp only [List.cons.injEq] at hc
      rw [← hc.1]
      decide)]
    simp only []
    rw [scanDigits_append _ _ _ _ hf (signOrEnd_not_digit rest hrest)]
    simp only [Nat.zero_add]
    rw [show List.foldl (fun a c => a * 10 + digitVal c) 0 t.intDigits = decVal t.intDigits
      from rfl, decVal_append, if_neg (by omega)]

theorem strtodDecimal_token (nptr : CStr) (t : Token) (h : t.WellFormed) (rest : List Char)
    (hrest : SignOrEnd rest) :
    strtodDecimal nptr t.neg
        (t.intDigits ++ (if t.point then '.' :: t.fracDigits else []) ++ rest) =
      (t.num, rest) := by
  unfold strtodDecimal
  rw [scanMantissa_token t h rest hrest]
  simp only []
  rw [if_neg (by have := h.2.2.1; omega),
    scanExponent_signOrEnd _ rest hrest (by decide) (by decide)]
  simp [Token.num]

theorem hexBody_cons_cons (a b : Char) (t : List Char) (hx : b ≠ 'x') (hX : b ≠ 'X') :
    hexBody (a :: b :: t) = none := by
  unfold hexBody
  split
  · rename_i x u heq
    simp only [List.cons.injEq] at heq
    obtain ⟨_, hb, _⟩ := heq
    subst hb
    simp [hx, hX]
  · rfl

theorem hexBody_singleton (a : Char) : hexBody [a] = none := by
  unfold hexBody
  split
  · rename_i x u heq
    simp at heq
  · rfl

theorem hexBody_of_head (a : Char) (t : List Char) (h : a ≠ '0') : hexBody (a :: t) = none := by
  unfold hexBody
  split
  · rename_i x u heq
    simp only [List.cons.injEq] at heq
    exact absurd heq.1 h
  · rfl

/-- The part of a token after its sign, followed by `rest`, begins with a digit or with
the point, and has no hexadecimal prefix. -/
theorem token_body_shape (t : Token) (h : t.WellFormed) (rest : List Char)
    (hrest : SignOrEnd rest) :
    (∃ c l, t.intDigits ++ (if t.point then '.' :: t.fracDigits else []) ++ rest = c :: l ∧
      c.toLower ≠ 'i' ∧ c.toLower ≠ 'n') ∧
    hexBody (t.intDigits ++ (if t.point then '.' :: t.fracDigits else []) ++ rest) = none := by
  obtain ⟨hi, hf, hpos, hnp⟩ := h
  cases hip : t.intDigits with
  | nil =>
    have hpt : t.point = true := by
      cases hp : t.point with
      | true => rfl
      | false =>
        have := hnp hp
        rw [hip, this] at hpos
        simp at hpos
    simp only [hpt, if_true, List.nil_append, List.cons_append]
    exact ⟨⟨'.', _, rfl, by decide, by decide⟩, hexBody_of_head _ _ (by decide)⟩
  | cons a ip =>
    have ha : isdigit a = true := hi a (by simp [hip])
    have hfa := digit_facts a ha
    refine ⟨⟨a, _, by rw [List.cons_append, List.cons_append],
      hfa.2.2.2.2.2.2.2.1, hfa.2.2.2.2.2.2.2.2⟩, ?_⟩
    cases ip with
    | cons b ip2 =>
      have hb : isdigit b = true := hi b (by simp [hip])
      have hfb := digit_facts b hb
      simp only [List.cons_append]
      exact hexBody_cons_cons _ _ _ hfb.2.2.2.2.2.1 hfb.2.2.2.2.2.2.1
    | nil =>
      cases hp : t.point with
      | true =>
        simp only [if_true, List.cons_append, List.nil_append]
        exact hexBody_cons_cons _ _ _ (by decide) (by decide)
      | false =>
        simp only [Bool.false_eq_true, if_false, List.append_nil, List.cons_append,
          List.nil_append]
        rcases hrest with h | ⟨u, h | h⟩
        · subst h
          exact hexBody_singleton a
        · subst h
          exact hexBody_cons_cons _ _ _ (by decide) (by decide)
        · subst h
          exact hexBody_cons_cons _ _ _ (by decide) (by decide)

theorem take_map_ne (c p : Char) (l pat : List Char) (k : Nat) (h : c.toLower ≠ p) :
    ((c :: l).take (k + 1)).map Char.toLower ≠ p :: pat := by
  simp only [List.take_succ_cons, List.map_cons, ne_eq, List.cons.injEq, not_and]
  intro h2
  exact absurd h2 h

/-- `strtod` reads exactly a well-formed token when, after white space and sign, the
string is the digits of the token followed by the end or by the sign of the next token. -/
theorem strtod_of_split (nptr : CStr) (t : Token) (h : t.WellFormed) (rest : List Char)
    (hrest : SignOrEnd rest)
    (hsplit : splitSign (nptr.dropWhile isspace) =
      (t.neg, t.intDigits ++ (if t.point then '.' :: t.fracDigits else []) ++ rest)) :
    strtod nptr = (t.num, rest) := by
  obtain ⟨⟨c, l, hcl, hi, hn⟩, hhex⟩ := token_body_shape t h rest hrest
  have hdec := strtodDecimal_token nptr t h rest hrest
  unfold strtod
  simp only [hsplit]
  rw [hcl] at hhex ⊢
  have e1 : List.map Char.toLower (List.take 8 (c :: l)) ≠ "infinity".toList :=
    take_map_ne c 'i' l _ 7 hi
  have e2 : List.map Char.toLower (List.take 3 (c :: l)) ≠ "inf".toList :=
    take_map_ne c 'i' l _ 2 hi
  have e3 : List.map Char.toLower (List.take 3 (c :: l)) ≠ "nan".toList :=
    take_map_ne c 'n' l _ 2 hn
  rw [if_neg e1, if_neg e2, if_neg e3]
  simp only [hhex]
  rw [← hcl]
  exact hdec

/-- `strtod` applied at a well-formed token that is followed by the end of the string or
by the sign of the next token reads exactly the token. -/
theorem strtod_token (t : Token) (h : t.WellFormed) (rest : List Char) (hrest : SignOrEnd rest) :
    strtod (t.text ++ rest) = (t.num, rest) := by
  apply strtod_of_split _ t h rest hrest
  rw [token_text_eq]
  cases t.neg <;> simp [splitSign, List.dropWhile, isspace]

/-- `strtod` on a non-empty string of decimal digits. -/
theorem strtod_digits (d : Char) (ds : List Char) (h : ∀ c ∈ d :: ds, isdigit c = true) :
    strtod (d :: ds) = (Num.fin false (decVal (d :: ds)) 10 0, []) := by
  have hd := digit_facts d (h d (by simp))
  have := strtod_of_split (d :: ds) ⟨false, d :: ds, false, []⟩
    ⟨h, by simp, by simp, fun _ => rfl⟩ [] (Or.inl rfl) (by
      have h1 : List.dropWhile isspace (d :: ds) = d :: ds := by
        rw [List.dropWhile_cons_of_neg (by simp [hd.1])]
      rw [h1]
      simp only [Bool.false_eq_true, if_false, List.append_nil]
      unfold splitSign
      split
      · rename_i u heq
        simp only [List.cons.injEq] at heq
        exact absurd heq.1 hd.2.1
      · rename_i u heq
        simp only [List.cons.injEq] at heq
        exact absurd heq.1 hd.2.2.1
      · rfl)
  rw [this]
  simp [Token.num]

theorem cstr_append_nul (v rest : List Char) (h : ∀ c ∈ v, c ≠ NUL) :
    cstr (v ++ NUL :: rest) = v := by
  unfold cstr
  rw [List.takeWhile_append_of_pos (by simpa using h)]
  simp [List.takeWhile]

theorem delayField_digits (sensor : SDI12_sensor) (d1 d2 d3 : Char) (rest : CStr)
    (h1 : isdigit d1 = true) (h2 : isdigit d2 = true) (h3 : isdigit d3 = true) :
    delayField sensor (sensor.address ++ d1 :: d2 :: d3 :: rest) = [d1, d2, d3] := by
  unfold delayField strncpy
  rw [List.drop_left]
  have : (List.take 3 (d1 :: d2 :: d3 :: rest) ++
      List.replicate (3 - (d1 :: d2 :: d3 :: rest).length) NUL ++
      List.drop 3 (List.replicate 10 NUL)) = [d1, d2, d3] ++ NUL :: List.replicate 6 NUL := by
    simp [List.replicate]
  rw [this]
  apply cstr_append_nul
  intro c hc
  simp only [List.mem_cons, List.mem_singleton, List.not_mem_nil, or_false] at hc
  rcases hc with h | h | h <;> subst h
  · exact (digit_facts _ h1).2.2.2.2.1
  · exact (digit_facts _ h2).2.2.2.2.1
  · exact (digit_facts _ h3).2.2.2.2.1

theorem digitVal_le (c : Char) (h : isdigit c = true) : digitVal c ≤ 9 := by
  have := isdigit_cases c h
  simp only [List.mem_cons, List.mem_singleton, List.not_mem_nil, or_false] at this
  rcases this with h | h | h | h | h | h | h | h | h | h <;> (subst h; decide)

theorem toUInt32_small (m : Nat) (h : m < 2 ^ 32) : (Num.fin false m 10 0).toUInt32 = some m := by
  unfold Num.toUInt32
  simp only [le_refl, if_true, Int.toNat_zero, pow_zero, Nat.mul_one]
  by_cases hm : m = 0
  · simp [hm]
  · have h2 : m < 4294967296 := h
    simp [hm, h2]


/-! ## The delay of the acknowledgement -/

/-- C5: when the three characters after the address in the acknowledgement are decimal
digits `ttt`, the delay read from it is `ttt` seconds, `ttt * 1000` does not wrap in 32
bits, and what follows the wait for the acknowledgement is a sleep of exactly
`ttt * 1000` ms, then the `D0` request. -/
theorem C5_measurement_delay (line : Line) (sensor : SDI12_sensor) (s : Sys)
    (d1 d2 d3 : Char) (rest : CStr)
    (h1 : isdigit d1 = true) (h2 : isdigit d2 = true) (h3 : isdigit d3 = true)
    (hack : (measurementAck line sensor s).2 = sensor.address ++ d1 :: d2 :: d3 :: rest) :
    (strtod (delayField sensor (measurementAck line sensor s).2)).1.toUInt32 =
      some (digitVal d1 * 100 + digitVal d2 * 10 + digitVal d3) ∧
    (digitVal d1 * 100 + digitVal d2 * 10 + digitVal d3) * 1000 % 2 ^ 32 =
      (digitVal d1 * 100 + digitVal d2 * 10 + digitVal d3) * 1000 ∧
    SDI12_take_measurement line sensor s =
      (parseMeasurement sensor (measurementData line sensor
          ((digitVal d1 * 100 + digitVal d2 * 10 + digitVal d3) * 1000)
          (measurementAck line sensor s).1).2).map
        (fun p => (p.1, p.2, (measurementData line sensor
          ((digitVal d1 * 100 + digitVal d2 * 10 + digitVal d3) * 1000)
          (measurementAck line sensor s).1).1)) ∧
    ∃ k, k ≤ 200 ∧
      (measurementData line sensor
          ((digitVal d1 * 100 + digitVal d2 * 10 + digitVal d3) * 1000)
          (measurementAck line sensor s).1).1.log =
        (measurementAck line sensor s).1.log ++
          [Event.delay ((digitVal d1 * 100 + digitVal d2 * 10 + digitVal d3) * 1000)] ++
          requestEvents (sensor.address ++ read_measurement ++ bang) ++
          List.replicate k (Event.delay 5) := by
  have b1 := digitVal_le d1 h1
  have b2 := digitVal_le d2 h2
  have b3 := digitVal_le d3 h3
  have hval : decVal [d1, d2, d3] = digitVal d1 * 100 + digitVal d2 * 10 + digitVal d3 := by
    simp only [decVal, List.foldl_cons, List.foldl_nil]
    ring
  have hd : (strtod (delayField sensor (measurementAck line sensor s).2)).1.toUInt32 =
      some (digitVal d1 * 100 + digitVal d2 * 10 + digitVal d3) := by
    rw [hack, delayField_digits sensor d1 d2 d3 rest h1 h2 h3,
      strtod_digits d1 [d2, d3] (by
        intro c hc
        simp only [List.mem_cons, List.mem_singleton, List.not_mem_nil, or_false] at hc
        rcases hc with h | h | h <;> subst h <;> assumption), hval]
    exact toUInt32_small _ (by
      have : (2:Nat) ^ 32 = 4294967296 := by norm_num
      omega)
  have hw : (digitVal d1 * 100 + digitVal d2 * 10 + digitVal d3) * 1000 % 2 ^ 32 =
      (digitVal d1 * 100 + digitVal d2 * 10 + digitVal d3) * 1000 :=
    Nat.mod_eq_of_lt (by
      have : (2:Nat) ^ 32 = 4294967296 := by norm_num
      omega)
  refine ⟨hd, hw, ?_, measurementData_log line sensor _ _⟩
  rw [take_measurement_eq line sensor s _ hd, hw]

/-- C5 on the line that answers at once: the acknowledgement `a015 02` gives 15 s. -/
theorem C5_measurement_delay_witness :
    (measurementAck promptLine (sensorA 2) sys0).2 =
      (sensorA 2).address ++ '0' :: '1' :: '5' :: " 02".toList ∧
    (strtod (delayField (sensorA 2) (measurementAck promptLine (sensorA 2) sys0).2)).1.toUInt32 =
      some (digitVal '0' * 100 + digitVal '1' * 10 + digitVal '5') ∧
    digitVal '0' * 100 + digitVal '1' * 10 + digitVal '5' = 15 ∧
    (SDI12_take_measurement promptLine (sensorA 2) sys0).map (fun r => r.2.2.log) =
      some (requestEvents "aM!".toList ++ [Event.delay 5, Event.delay 15000] ++
        requestEvents "aD0!".toList ++ [Event.delay 5]) :=
  ⟨by decide,
   (C5_measurement_delay promptLine (sensorA 2) sys0 '0' '1' '5' " 02".toList
      (by decide) (by decide) (by decide) (by decide)).1,
   by decide, by decide⟩


/-! ## The values of a data response -/

theorem tokensText_cons (t : Token) (ts : List Token) :
    tokensText (t :: ts) = t.text ++ tokensText ts := by
  simp [tokensText]

theorem tokensText_signOrEnd (ts : List Token) : SignOrEnd (tokensText ts) := by
  cases ts with
  | nil => exact Or.inl rfl
  | cons t ts =>
    rw [tokensText_cons, token_text_eq]
    cases t.neg
    · exact Or.inr ⟨_, Or.inl rfl⟩
    · exact Or.inr ⟨_, Or.inr rfl⟩

/-- The parse loop on the text of the remaining tokens stores the number of each token in
its slot, in order, and leaves every other slot alone. -/
theorem parseLoop_tokens (nvars : Nat) (h8 : nvars < 256) (rem : List Token)
    (hwf : ∀ t ∈ rem, t.WellFormed) (fuel i : Nat) (values : Nat → Num)
    (hi : i + rem.length = nvars) (hf : rem.length < fuel) :
    ∃ vals, parseLoop nvars fuel i (tokensText rem) values = some (vals, []) ∧
      (∀ j (hj : j < rem.length), vals (i + j) = (rem[j]).num) ∧
      (∀ k, k < i ∨ nvars ≤ k → vals k = values k) := by
  induction rem generalizing fuel i values with
  | nil =>
    cases fuel with
    | zero => simp at hf
    | succ fuel =>
      refine ⟨values, ?_, fun j hj => absurd hj (by simp), fun _ _ => rfl⟩
      unfold parseLoop
      rw [if_neg (by simp at hi; omega)]
      rfl
  | cons t rem ih =>
    cases fuel with
    | zero => simp at hf
    | succ fuel =>
      have hlen : i + (rem.length + 1) = nvars := by simpa using hi
      have hstep : strtod (tokensText (t :: rem)) = (t.num, tokensText rem) := by
        rw [tokensText_cons]
        exact strtod_token t (hwf t (by simp)) _ (tokensText_signOrEnd rem)
      obtain ⟨vals, hv, hget, hframe⟩ := ih (fun u hu => hwf u (by simp [hu])) fuel (i + 1)
        (Function.update values i t.num) (by omega) (by simp at hf; omega)
      refine ⟨vals, ?_, ?_, ?_⟩
      · unfold parseLoop
        rw [if_pos (by omega), Nat.mod_eq_of_lt (by omega), hstep]
        exact hv
      · intro j hj
        cases j with
        | zero =>
          rw [Nat.add_zero, hframe i (Or.inl (by omega)), Function.update_same]
          rfl
        | succ j =>
          have := hget j (by simpa using hj)
          rw [show i + (j + 1) = i + 1 + j by omega, this]
          rfl
      · intro k hk
        rw [hframe k (by omega), Function.update_noteq (by omega)]

theorem strstr_sign_of_tokens (address : CStr) (t : Token) (ts : List Token) :
    strstr (address ++ tokensText (t :: ts)) "+".toList ≠ none ∨
    strstr (address ++ tokensText (t :: ts)) "-".toList ≠ none := by
  rw [tokensText_cons, token_text_eq]
  cases t.neg
  · left
    rw [Ne, strstr_eq_none_iff, not_not]
    exact ⟨address, t.intDigits ++ ((if t.point then '.' :: t.fracDigits else []) ++
      tokensText ts), by simp⟩
  · right
    rw [Ne, strstr_eq_none_iff, not_not]
    exact ⟨address, t.intDigits ++ ((if t.point then '.' :: t.fracDigits else []) ++
      tokensText ts), by simp⟩

/-- When a sign is present, step 4 is the parse loop, with result 1. -/
theorem parseMeasurement_signed (sensor : SDI12_sensor) (value_str : CStr)
    (h : strstr value_str "+".toList ≠ none ∨ strstr value_str "-".toList ≠ none) :
    parseMeasurement sensor value_str =
      (parseLoop sensor.nvars 257 0 (value_str.drop sensor.address.length)
        sensor.values).map (fun r => (1, { sensor with values := r.1 })) := by
  unfold parseMeasurement
  cases hp : strstr value_str "+".toList with
  | some x => rfl
  | none =>
    cases hm : strstr value_str "-".toList with
    | some x => rfl
    | none =>
      rcases h with h | h
      · exact absurd hp h
      · exact absurd hm h

/-- Step 4 never changes `nvars` and stores only below `nvars`. -/
theorem parseMeasurement_frame (sensor : SDI12_sensor) (value_str : CStr)
    (p : Nat × SDI12_sensor) (h : parseMeasurement sensor value_str = some p) :
    p.2.nvars = sensor.nvars ∧ ∀ k, sensor.nvars ≤ k → p.2.values k = sensor.values k := by
  by_cases hn : sensor.nvars < 256
  · by_cases hs : strstr value_str "+".toList ≠ none ∨ strstr value_str "-".toList ≠ none
    · rw [parseMeasurement_signed sensor value_str hs, Option.map_eq_some'] at h
      obtain ⟨r, hr, hp⟩ := h
      subst hp
      exact ⟨rfl, parseLoop_frame sensor.nvars hn 257 0 _ sensor.values (by omega) r hr⟩
    · have h1 : strstr value_str "+".toList = none := by
        by_contra hc
        exact hs (Or.inl hc)
      have h2 : strstr value_str "-".toList = none := by
        by_contra hc
        exact hs (Or.inr hc)
      unfold parseMeasurement at h
      simp only [h1, h2] at h
      rw [sentinelLoop_spec sensor.nvars hn 257 0 sensor.values (by omega) (by omega),
        Option.map_some', Option.some.injEq] at h
      subst h
      refine ⟨rfl, fun k hk => ?_⟩
      show (if 0 ≤ k ∧ k < sensor.nvars then sentinel else sensor.values k) = _
      rw [if_neg (by omega)]
  · exfalso
    unfold parseMeasurement at h
    have hp := parseLoop_diverges sensor.nvars (by omega) 257 0
      (value_str.drop sensor.address.length) sensor.values (by omega)
    have hs := sentinelLoop_diverges sensor.nvars (by omega) 257 0 sensor.values (by omega)
    rw [hp, hs] at h
    simp only [Option.map_none'] at h
    split at h
    · exact absurd h (by simp)
    · split at h <;> exact absurd h (by simp)


/-- C4 (as amended): when the data response extracted is the address followed by
`n = nvars` well-formed signed decimal tokens, with `1 ≤ n ≤ 255`,
`SDI12_take_measurement` returns 1, `values[i]` is the number of the `i`-th token for
every `i < n`, and the slots from `n` on are untouched. -/
theorem C4_parse_values (line : Line) (sensor : SDI12_sensor) (s : Sys) (d : Nat)
    (toks : List Token)
    (hd : (strtod (delayField sensor (measurementAck line sensor s).2)).1.toUInt32 = some d)
    (hresp : (measurementData line sensor (d * 1000 % 2 ^ 32)
      (measurementAck line sensor s).1).2 = sensor.address ++ tokensText toks)
    (hwf : ∀ t ∈ toks, t.WellFormed) (hn : toks.length = sensor.nvars)
    (hpos : 0 < toks.length) (h8 : toks.length < 256) :
    ∃ r, SDI12_take_measurement line sensor s = some r ∧ r.1 = 1 ∧
      (∀ i (hi : i < toks.length), r.2.1.values i = (toks[i]).num) ∧
      (∀ i, toks.length ≤ i → r.2.1.values i = sensor.values i) := by
  obtain ⟨vals, hv, hget, hframe⟩ := parseLoop_tokens sensor.nvars (by omega) toks hwf 257 0
    sensor.values (by omega) (by omega)
  have hsign : strstr (sensor.address ++ tokensText toks) "+".toList ≠ none ∨
      strstr (sensor.address ++ tokensText toks) "-".toList ≠ none := by
    cases toks with
    | nil => simp at hpos
    | cons t ts => exact strstr_sign_of_tokens sensor.address t ts
  rw [take_measurement_eq line sensor s d hd, hresp,
    parseMeasurement_signed sensor _ hsign, List.drop_left, hv]
  refine ⟨_, rfl, rfl, ?_, ?_⟩
  · intro i hi
    have := hget i hi
    rw [Nat.zero_add] at this
    exact this
  · intro i hi
    exact hframe i (Or.inr (by omega))

/-- C4 (as amended) on the line that answers at once: the response `a+12.3-4.50` with
two values expected gives 12.3 and -4.50. -/
theorem C4_parse_values_witness :
    (measurementData promptLine (sensorA 2) (15 * 1000 % 2 ^ 32)
      (measurementAck promptLine (sensorA 2) sys0).1).2 =
        (sensorA 2).address ++ tokensText sampleTokens ∧
    tokensText sampleTokens = "+12.3-4.50".toList ∧
    (∃ r, SDI12_take_measurement promptLine (sensorA 2) sys0 = some r ∧ r.1 = 1 ∧
      (∀ i (hi : i < sampleTokens.length), r.2.1.values i = (sampleTokens[i]).num) ∧
      (∀ i, sampleTokens.length ≤ i → r.2.1.values i = (sensorA 2).values i)) ∧
    (sampleTokens[0]).num.toRat = 12.3 ∧ (sampleTokens[1]).num.toRat = -4.50 :=
  ⟨by decide, by decide,
   C4_parse_values promptLine (sensorA 2) sys0 15 sampleTokens (by decide) (by decide)
     (by decide) (by decide) (by decide) (by decide),
   by rw [show (sampleTokens[0]).num = Num.fin false 123 10 (-1) from by decide]
      norm_num [Num.toRat],
   by rw [show (sampleTokens[1]).num = Num.fin true 450 10 (-2) from by decide]
      norm_num [Num.toRat]⟩

/-- C4 fails as stated for `n = 0`: the response is the address followed by no token, as
many as the sensor expects, and `SDI12_take_measurement` returns 0, not 1. -/
theorem C4_counterexample :
    (sensorA 0).nvars = ([] : List Token).length ∧
    (measurementData emptyDataLine (sensorA 0) 0
      (measurementAck emptyDataLine (sensorA 0) sys0).1).2 =
        (sensorA 0).address ++ tokensText [] ∧
    (SDI12_take_measurement emptyDataLine (sensorA 0) sys0).map (fun r => r.1) = some 0 :=
  ⟨rfl, by decide, by decide⟩


/-! ## The value count of the acknowledgement -/

/-- The delay string is made of the three characters after the address and of nothing
that follows them. -/
theorem delayField_take (sensor : SDI12_sensor) (v : CStr) :
    delayField sensor v = delayField sensor (v.take (sensor.address.length + 3)) := by
  unfold delayField strncpy
  rw [List.drop_take, Nat.add_sub_cancel_left, List.take_take, Nat.min_self,
    List.length_take]
  have : 3 - min 3 (List.drop sensor.address.length v).length =
      3 - (List.drop sensor.address.length v).length := by omega
  rw [this]

theorem block_congr (line1 line2 : Line) (e : Event) (s : Sys)
    (h : line1 s.ticks = line2 s.ticks) : block line1 e s = block line2 e s := by
  unfold block
  rw [h]

theorem block_ticks (line : Line) (e : Event) (s : Sys) :
    (block line e s).ticks = s.ticks + 1 := rfl

theorem send_ticks (line : Line) (command : CStr) (s : Sys) :
    (SDI12_send_command line command s).ticks = s.ticks + 3 := rfl

theorem request_ticks (line : Line) (command : CStr) (s : Sys) :
    (request line command s).ticks = s.ticks + 3 := rfl

theorem CyDelay_congr (line1 line2 : Line) (t ms : Nat) (s : Sys)
    (h : AgreeFrom line1 line2 t) (hs : t ≤ s.ticks) :
    CyDelay line1 ms s = CyDelay line2 ms s :=
  block_congr line1 line2 _ s (h _ hs)

theorem send_congr (line1 line2 : Line) (t : Nat) (command : CStr) (s : Sys)
    (h : AgreeFrom line1 line2 t) (hs : t ≤ s.ticks) :
    SDI12_send_command line1 command s = SDI12_send_command line2 command s := by
  unfold SDI12_send_command SDI12_UART_PutString CyDelayUs
  have h1 : block line1 (Event.delayUs 12000) (SDI12_control_reg_Write 1 s) =
      block line2 (Event.delayUs 12000) (SDI12_control_reg_Write 1 s) :=
    block_congr _ _ _ _ (h _ hs)
  simp only [h1]
  have h2 : block line1 (Event.delayUs 8400) (SDI12_control_reg_Write 0
        (block line2 (Event.delayUs 12000) (SDI12_control_reg_Write 1 s))) =
      block line2 (Event.delayUs 8400) (SDI12_control_reg_Write 0
        (block line2 (Event.delayUs 12000) (SDI12_control_reg_Write 1 s))) :=
    block_congr _ _ _ _ (h _ (by
      show t ≤ s.ticks + 1
      omega))
  simp only [h2]
  exact block_congr _ _ _ _ (h _ (by
    show t ≤ s.ticks + 1 + 1
    omega))

theorem waitLoop_congr (line1 line2 : Line) (t : Nat) (value_str : CStr) (n : Nat) (s : Sys)
    (h : AgreeFrom line1 line2 t) (hs : t ≤ s.ticks) :
    waitLoop line1 value_str n s = waitLoop line2 value_str n s := by
  induction n generalizing s with
  | zero => rfl
  | succ n ih =>
    have hd := CyDelay_congr line1 line2 t 5 s h hs
    cases hx : strextract (SDI12_uart_get_string (CyDelay line1 5 s)) bang crlf with
    | some v =>
      rw [waitLoop_found line1 value_str n s v hx,
        waitLoop_found line2 value_str n s v (by rw [← hd]; exact hx), hd]
    | none =>
      rw [waitLoop_next line1 value_str n s hx,
        waitLoop_next line2 value_str n s (by rw [← hd]; exact hx), hd]
      exact ih _ (by
        show t ≤ s.ticks + 1
        omega)

/-- The data phase is the same on two lines that agree from its start on. -/
theorem measurementData_congr (line1 line2 : Line) (sensor : SDI12_sensor) (ms : Nat)
    (s : Sys) (h : AgreeFrom line1 line2 s.ticks) :
    measurementData line1 sensor ms s = measurementData line2 sensor ms s := by
  unfold measurementData
  simp only []
  rw [CyDelay_congr line1 line2 s.ticks ms s h (le_refl _),
    send_congr line1 line2 s.ticks _ _ h (by
      show s.ticks ≤ s.ticks + 1
      omega)]
  exact waitLoop_congr line1 line2 s.ticks _ 200 _ h (by
    show s.ticks ≤ s.ticks + 1 + 3
    omega)

/-- The data phase does not depend on what the receive buffer held when it starts: the
buffer is cleared before the `D0` command is sent. -/
theorem measurementData_of_clock (line : Line) (sensor : SDI12_sensor) (ms : Nat)
    (s1 s2 : Sys) (ht : s1.ticks = s2.ticks) (hl : s1.log = s2.log) :
    measurementData line sensor ms s1 = measurementData line sensor ms s2 := by
  have hc : SDI12_uart_clear_string (CyDelay line ms s1) =
      SDI12_uart_clear_string (CyDelay line ms s2) := by
    show Sys.mk _ _ (s1.ticks + 1) ((s1.log ++ [Event.delay ms]) ++ [Event.clearRx]) =
      Sys.mk _ _ (s2.ticks + 1) ((s2.log ++ [Event.delay ms]) ++ [Event.clearRx])
    rw [ht, hl]
  unfold measurementData
  simp only []
  rw [hc]

theorem waitLoop_clock (line : Line) (value_str : CStr) (n : Nat) (s : Sys) :
    ∃ k, k ≤ n ∧
      (waitLoop line value_str n s).1.log = s.log ++ List.replicate k (Event.delay 5) ∧
      (waitLoop line value_str n s).1.ticks = s.ticks + k := by
  induction n generalizing s with
  | zero => exact ⟨0, le_refl _, by simp [waitLoop], rfl⟩
  | succ n ih =>
    cases hs : strextract (SDI12_uart_get_string (CyDelay line 5 s)) bang crlf with
    | some v =>
      rw [waitLoop_found line value_str n s v hs]
      exact ⟨1, by omega, rfl, rfl⟩
    | none =>
      rw [waitLoop_next line value_str n s hs]
      obtain ⟨k, hk, hlog, htick⟩ := ih (CyDelay line 5 s)
      refine ⟨k + 1, by omega, ?_, ?_⟩
      · rw [hlog, CyDelay_log, List.append_assoc]
        rfl
      · rw [htick]
        show s.ticks + 1 + k = s.ticks + (k + 1)
        omega

/-- After the wait for the acknowledgement the log is fixed by the clock. -/
theorem measurementAck_clock (line : Line) (sensor : SDI12_sensor) (s : Sys) :
    ∃ k, (measurementAck line sensor s).1.log =
        s.log ++ requestEvents (sensor.address ++ take_measurement ++ bang) ++
          List.replicate k (Event.delay 5) ∧
      (measurementAck line sensor s).1.ticks = s.ticks + 3 + k := by
  obtain ⟨k, _, hlog, htick⟩ := waitLoop_clock line (clear_str []) 200
    (request line (sensor.address ++ take_measurement ++ bang) s)
  exact ⟨k, by rw [← request_log]; exact hlog, by rw [← request_ticks]; exact htick⟩

theorem take_measurement_none (line : Line) (sensor : SDI12_sensor) (s : Sys)
    (hd : (strtod (delayField sensor (measurementAck line sensor s).2)).1.toUInt32 = none) :
    SDI12_take_measurement line sensor s = none := by
  unfold SDI12_take_measurement
  simp only [hd]

theorem parseLoop_below (nvars fuel i : Nat) (ptr_end : CStr) (values : Nat → Num)
    (h : i < 256) (r : (Nat → Num) × CStr)
    (hr : parseLoop nvars fuel i ptr_end values = some r) (hn : nvars < 256) :
    ∀ k, k < i → r.1 k = values k := by
  induction fuel generalizing i ptr_end values with
  | zero => exact absurd hr (by simp [parseLoop])
  | succ fuel ih =>
    unfold parseLoop at hr
    by_cases hlt : i < nvars
    · rw [if_pos hlt, Nat.mod_eq_of_lt (by omega)] at hr
      intro k hk
      rw [ih _ _ _ (by omega) hr k (by omega), Function.update_noteq (by omega)]
    · rw [if_neg hlt] at hr
      simp only [Option.some.injEq] at hr
      subst hr
      intro k _
      rfl

/-- The parse loop stores in slot `i + j`, for every slot below `nvars`, the number read
by the `j`-th further call of `strtod`. -/
theorem parseLoop_values (nvars : Nat) (hn : nvars < 256) (fuel i : Nat) (ptr_end : CStr)
    (values : Nat → Num) (r : (Nat → Num) × CStr)
    (hr : parseLoop nvars fuel i ptr_end values = some r) :
    ∀ j, i + j < nvars → r.1 (i + j) = (strtod (endptrAfter ptr_end j)).1 := by
  induction fuel generalizing i ptr_end values with
  | zero => exact absurd hr (by simp [parseLoop])
  | succ fuel ih =>
    intro j hj
    have hr2 := hr
    unfold parseLoop at hr2
    rw [if_pos (by omega), Nat.mod_eq_of_lt (by omega)] at hr2
    cases j with
    | zero =>
      rw [Nat.add_zero, parseLoop_below nvars fuel (i + 1) _ _ (by omega) r hr2 hn i (by omega),
        Function.update_same]
      rfl
    | succ j =>
      have := ih (i + 1) _ _ hr2 j (by omega)
      rw [show i + (j + 1) = i + 1 + j by omega, this]
      rfl

/-- A result 1 of step 4 comes from the parse loop over `nvars` slots. -/
theorem parseMeasurement_one (sensor : SDI12_sensor) (value_str : CStr)
    (p : Nat × SDI12_sensor) (h : parseMeasurement sensor value_str = some p) (h1 : p.1 = 1) :
    ∀ i, i < sensor.nvars →
      p.2.values i =
        (strtod (endptrAfter (value_str.drop sensor.address.length) i)).1 := by
  have hn : sensor.nvars < 256 := by
    by_contra hc
    unfold parseMeasurement at h
    rw [parseLoop_diverges sensor.nvars (by omega) 257 0 _ sensor.values (by omega),
      sentinelLoop_diverges sensor.nvars (by omega) 257 0 sensor.values (by omega)] at h
    simp only [Option.map_none'] at h
    split at h
    · exact absurd h (by simp)
    · split at h <;> exact absurd h (by simp)
  by_cases hs : strstr value_str "+".toList ≠ none ∨ strstr value_str "-".toList ≠ none
  · rw [parseMeasurement_signed sensor value_str hs, Option.map_eq_some'] at h
    obtain ⟨r, hr, hp⟩ := h
    subst hp
    intro i hi
    have := parseLoop_values sensor.nvars hn 257 0 _ sensor.values r hr i (by omega)
    rw [Nat.zero_add] at this
    exact this
  · exfalso
    have e1 : strstr value_str "+".toList = none := by
      by_contra hc
      exact hs (Or.inl hc)
    have e2 : strstr value_str "-".toList = none := by
      by_contra hc
      exact hs (Or.inr hc)
    unfold parseMeasurement at h
    simp only [e1, e2, Option.map_eq_some'] at h
    obtain ⟨v, _, hp⟩ := h
    rw [← hp] at h1
    exact absurd h1 Nat.zero_ne_one

/-- C6 (as amended): the value count of the acknowledgement is not read. Two runs on the
same sensor whose acknowledgements are found at the same poll and agree in the address
and the three characters of the delay, on lines that deliver the same bytes afterwards,
give the same result, whatever follows the delay field in either acknowledgement. The
number of values parsed is the sensor's own `nvars`: a run never changes `nvars`, leaves
the slots from `nvars` on untouched and, when it returns 1, has stored in every slot
`i < nvars` the number read by the `i`-th call of `strtod` on the data response. -/
theorem C6_value_count_not_read (line1 line2 : Line) (sensor : SDI12_sensor) (s : Sys) :
    ((measurementAck line1 sensor s).1.ticks = (measurementAck line2 sensor s).1.ticks →
      (measurementAck line1 sensor s).2.take (sensor.address.length + 3) =
        (measurementAck line2 sensor s).2.take (sensor.address.length + 3) →
      AgreeFrom line1 line2 (measurementAck line1 sensor s).1.ticks →
      SDI12_take_measurement line1 sensor s = SDI12_take_measurement line2 sensor s) ∧
    (∀ r, SDI12_take_measurement line1 sensor s = some r →
      r.2.1.nvars = sensor.nvars ∧
      (∀ k, sensor.nvars ≤ k → r.2.1.values k = sensor.values k) ∧
      (r.1 = 1 →
        ∃ d, (strtod (delayField sensor (measurementAck line1 sensor s).2)).1.toUInt32 =
            some d ∧
          ∀ i, i < sensor.nvars →
            r.2.1.values i =
              (strtod (endptrAfter ((measurementData line1 sensor (d * 1000 % 2 ^ 32)
                (measurementAck line1 sensor s).1).2.drop sensor.address.length) i)).1)) := by
  constructor
  · intro ht hf hl
    have hfield : delayField sensor (measurementAck line1 sensor s).2 =
        delayField sensor (measurementAck line2 sensor s).2 := by
      rw [delayField_take sensor (measurementAck line1 sensor s).2, hf,
        ← delayField_take sensor (measurementAck line2 sensor s).2]
    obtain ⟨k1, hlog1, htick1⟩ := measurementAck_clock line1 sensor s
    obtain ⟨k2, hlog2, htick2⟩ := measurementAck_clock line2 sensor s
    have hk : k1 = k2 := by omega
    have hlog : (measurementAck line1 sensor s).1.log = (measurementAck line2 sensor s).1.log := by
      rw [hlog1, hlog2, hk]
    have hdata : ∀ ms, measurementData line1 sensor ms (measurementAck line1 sensor s).1 =
        measurementData line2 sensor ms (measurementAck line2 sensor s).1 := by
      intro ms
      rw [measurementData_congr line1 line2 sensor ms _ hl]
      exact measurementData_of_clock line2 sensor ms _ _ ht hlog
    cases hd : (strtod (delayField sensor (measurementAck line1 sensor s).2)).1.toUInt32 with
    | none =>
      rw [take_measurement_none line1 sensor s hd,
        take_measurement_none line2 sensor s (by rw [← hfield]; exact hd)]
    | some d =>
      rw [take_measurement_eq line1 sensor s d hd,
        take_measurement_eq line2 sensor s d (by rw [← hfield]; exact hd), hdata]
  · intro r hr
    obtain ⟨d, hd, p, hp, hrp⟩ := take_measurement_some line1 sensor s r hr
    subst hrp
    obtain ⟨hnv, hframe⟩ := parseMeasurement_frame sensor _ p hp
    exact ⟨hnv, hframe, fun h1 => ⟨d, hd, parseMeasurement_one sensor _ p hp h1⟩⟩

theorem countLine_agrees : AgreeFrom promptLine countLine 4 := by
  intro k hk
  unfold countLine
  rw [if_neg (by omega)]

/-- C6 (as amended) on two lines that differ in the announced count only: the
acknowledgements `a015 02` and `a015 07` give the same result for a sensor set up for two
values, and both values of the data response are stored. -/
theorem C6_value_count_not_read_witness :
    (measurementAck promptLine (sensorA 2) sys0).2 = "a015 02".toList ∧
    (measurementAck countLine (sensorA 2) sys0).2 = "a015 07".toList ∧
    SDI12_take_measurement promptLine (sensorA 2) sys0 =
      SDI12_take_measurement countLine (sensorA 2) sys0 ∧
    (SDI12_take_measurement countLine (sensorA 2) sys0).map
      (fun r => (r.1, r.2.1.nvars, r.2.1.values 0, r.2.1.values 1)) =
      some (1, 2, Num.fin false 123 10 (-1), Num.fin true 450 10 (-2)) :=
  ⟨by decide, by decide,
   (C6_value_count_not_read promptLine countLine (sensorA 2) sys0).1 (by decide) (by decide)
     (by
       have ht : (measurementAck promptLine (sensorA 2) sys0).1.ticks = 4 := by decide
       rw [ht]
       exact countLine_agrees),
   by decide⟩


/-- C6 fails as stated: the acknowledgement `a015 02` announces two values and the data
response carries two, but for a sensor set up with `nvars = 1` the operation stores one
value, leaves `nvars` at 1 and the second slot at its old content; no count is taken from
the acknowledgement. -/
theorem C6_counterexample :
    (measurementAck promptLine (sensorA 1) sys0).2 = "a015 02".toList ∧
    (sensorA 1).values 1 = Num.fin false 7 10 0 ∧
    (SDI12_take_measurement promptLine (sensorA 1) sys0).map
      (fun r => (r.1, r.2.1.nvars, r.2.1.values 0, r.2.1.values 1)) =
      some (1, 1, Num.fin false 123 10 (-1), Num.fin false 7 10 0) :=
  ⟨by decide, rfl, by decide⟩


/-! ## Info -/

theorem beforeFirst_initial (pat l r : CStr) (h : beforeFirst pat l = some r) : r <+: l := by
  induction l generalizing r with
  | nil =>
    unfold beforeFirst at h
    split at h
    · simp only [Option.some.injEq] at h
      subst h
      exact List.prefix_refl _
    · exact absurd h (by simp)
  | cons c t ih =>
    unfold beforeFirst at h
    split at h
    · simp only [Option.some.injEq] at h
      subst h
      exact List.nil_prefix
    · rw [Option.map_eq_some'] at h
      obtain ⟨r2, hr2, hr⟩ := h
      subst hr
      exact List.cons_prefix_cons.mpr ⟨rfl, ih r2 hr2⟩

theorem cstr_no_nul (a : List Char) : ∀ c ∈ cstr a, c ≠ NUL := by
  intro c hc
  have := List.mem_takeWhile_imp hc
  simpa using this

/-- What is extracted from the receive buffer contains no NUL. -/
theorem strextract_no_nul (s : Sys) (start stop v : CStr)
    (h : strextract (SDI12_uart_get_string s) start stop = some v) : ∀ c ∈ v, c ≠ NUL := by
  unfold strextract at h
  cases hb : afterLast start (SDI12_uart_get_string s) with
  | none =>
    rw [hb] at h
    exact absurd h (by simp)
  | some body =>
    rw [hb] at h
    intro c hc
    have h1 := (beforeFirst_initial stop body v h).subset hc
    have h2 := (afterLast_suffix start _ body hb).subset h1
    exact cstr_no_nul _ c h2

/-- The info loop returns at the first poll at which something is extracted. -/
theorem infoLoop_first (line : Line) (sensor : SDI12_sensor) (j n : Nat) (s : Sys) (v : CStr)
    (hjn : j < n)
    (hbefore : ∀ k, k < j →
      strextract (SDI12_uart_get_string (atPoll line s k)) bang crlf = none)
    (hat : strextract (SDI12_uart_get_string (atPoll line s j)) bang crlf = some v) :
    infoLoop line sensor n s = (1, parseInfo sensor v, atPoll line s j) := by
  induction j generalizing n s with
  | zero =>
    cases n with
    | zero => omega
    | succ n => exact infoLoop_found line sensor n s v hat
  | succ j ih =>
    cases n with
    | zero => omega
    | succ n =>
      rw [infoLoop_next line sensor n s (hbefore 0 (by omega)), atPoll_succ]
      apply ih n (CyDelay line 5 s) (by omega)
      · intro k hk
        rw [← atPoll_succ]
        exact hbefore (k + 1) (by omega)
      · rw [← atPoll_succ]
        exact hat

theorem strncpy_take_full (dest : List Char) (src : CStr) (n : Nat) (h : n ≤ src.length) :
    (strncpy dest src n).take n = src.take n := by
  unfold strncpy
  rw [Nat.sub_eq_zero_of_le h, List.replicate_zero, List.append_nil]
  exact List.take_left' (by rw [List.length_take]; omega)

theorem cstr_of_no_nul (v : List Char) (h : ∀ c ∈ v, c ≠ NUL) : cstr v = v := by
  unfold cstr
  rw [List.takeWhile_eq_self_iff]
  simpa using h

theorem cstr_append_replicate (v : List Char) (k : Nat) (h : ∀ c ∈ v, c ≠ NUL) :
    cstr (v ++ List.replicate k NUL) = v := by
  cases k with
  | zero => simpa using cstr_of_no_nul v h
  | succ k =>
    rw [List.replicate_succ]
    exact cstr_append_nul v _ h

theorem strncpy_take_cstr (dest : List Char) (src : CStr) (n : Nat) (h : src.length ≤ n)
    (hnn : ∀ c ∈ src, c ≠ NUL) : cstr ((strncpy dest src n).take n) = src := by
  unfold strncpy
  rw [List.take_of_length_le h, List.take_left' (by
    rw [List.length_append, List.length_replicate]; omega)]
  exact cstr_append_replicate src _ hnn

theorem strncpy_cstr_full (dest : List Char) (src : CStr) (n : Nat) (h : n ≤ src.length)
    (hnn : ∀ c ∈ src, c ≠ NUL) (hd : (dest.drop n).head? = some NUL) :
    cstr (strncpy dest src n) = src.take n := by
  unfold strncpy
  rw [Nat.sub_eq_zero_of_le h, List.replicate_zero, List.append_nil]
  cases hdd : dest.drop n with
  | nil => rw [hdd] at hd; simp at hd
  | cons c t =>
    rw [hdd] at hd
    simp only [List.head?_cons, Option.some.injEq] at hd
    subst hd
    exact cstr_append_nul _ _ (fun c hc => hnn c (List.mem_of_mem_take hc))

theorem strncpy_cstr_short (dest : List Char) (src : CStr) (n : Nat) (h : src.length < n)
    (hnn : ∀ c ∈ src, c ≠ NUL) : cstr (strncpy dest src n) = src := by
  unfold strncpy
  rw [List.take_of_length_le (by omega)]
  obtain ⟨k, hk⟩ : ∃ k, n - src.length = k + 1 := ⟨n - src.length - 1, by omega⟩
  rw [hk, List.replicate_succ, List.append_assoc, List.cons_append]
  exact cstr_append_nul _ _ hnn


/-- The five copies of `parseInfo` on a response laid out as the address and the five
fields. -/
theorem parseInfo_layout (sensor : SDI12_sensor) (ver ven mdl fw ser : CStr)
    (h2 : ver.length = 2) (h8 : ven.length = 8) (h6 : mdl.length = 6) (h3 : fw.length = 3) :
    parseInfo sensor (sensor.address ++ (ver ++ (ven ++ (mdl ++ (fw ++ ser))))) =
      { sensor with
        v_SDI12 := strncpy sensor.v_SDI12 (ver ++ (ven ++ (mdl ++ (fw ++ ser)))) 2,
        vendor := strncpy sensor.vendor (ven ++ (mdl ++ (fw ++ ser))) 8,
        model := strncpy sensor.model (mdl ++ (fw ++ ser)) 6,
        version := strncpy sensor.version (fw ++ ser) 3,
        serial := strncpy sensor.serial ser 13 } := by
  unfold parseInfo
  simp only [List.drop_left, List.drop_left' h2, List.drop_left' h8, List.drop_left' h6,
    List.drop_left' h3]

/-- C7: when the response extracted at the first successful poll is the address followed
by a 2-character version, an 8-character vendor, a 6-character model, a 3-character
firmware version and a serial of up to 13 characters, `SDI12_info` returns 1; the bytes
copied into each field are exactly those of its source substring (the serial padded with
NULs up to 13), and the field read as a string equals the source substring, with its
length, wherever the byte after the field was NUL beforehand, or, for the serial, also
when it is shorter than 13. Address, `nvars` and values are untouched. -/
theorem C7_info_fields (line : Line) (sensor : SDI12_sensor) (s : Sys) (j : Nat)
    (ver ven mdl fw ser : CStr) (hj : j < 200)
    (hbefore : ∀ k, k < j → strextract (SDI12_uart_get_string (atPoll line
      (request line (sensor.address ++ info ++ bang) s) k)) bang crlf = none)
    (hat : strextract (SDI12_uart_get_string (atPoll line
      (request line (sensor.address ++ info ++ bang) s) j)) bang crlf =
        some (sensor.address ++ (ver ++ (ven ++ (mdl ++ (fw ++ ser))))))
    (h2 : ver.length = 2) (h8 : ven.length = 8) (h6 : mdl.length = 6) (h3 : fw.length = 3)
    (h13 : ser.length ≤ 13) :
    (SDI12_info line sensor s).1 = 1 ∧
    (SDI12_info line sensor s).2.1.v_SDI12.take 2 = ver ∧
    (SDI12_info line sensor s).2.1.vendor.take 8 = ven ∧
    (SDI12_info line sensor s).2.1.model.take 6 = mdl ∧
    (SDI12_info line sensor s).2.1.version.take 3 = fw ∧
    cstr ((SDI12_info line sensor s).2.1.serial.take 13) = ser ∧
    ((sensor.v_SDI12.drop 2).head? = some NUL →
      cstr (SDI12_info line sensor s).2.1.v_SDI12 = ver) ∧
    ((sensor.vendor.drop 8).head? = some NUL →
      cstr (SDI12_info line sensor s).2.1.vendor = ven) ∧
    ((sensor.model.drop 6).head? = some NUL →
      cstr (SDI12_info line sensor s).2.1.model = mdl) ∧
    ((sensor.version.drop 3).head? = some NUL →
      cstr (SDI12_info line sensor s).2.1.version = fw) ∧
    (ser.length < 13 ∨ (sensor.serial.drop 13).head? = some NUL →
      cstr (SDI12_info line sensor s).2.1.serial = ser) ∧
    (SDI12_info line sensor s).2.1.address = sensor.address ∧
    (SDI12_info line sensor s).2.1.nvars = sensor.nvars ∧
    (SDI12_info line sensor s).2.1.values = sensor.values := by
  have hnn := strextract_no_nul _ bang crlf _ hat
  have hrun : SDI12_info line sensor s = (1, parseInfo sensor
      (sensor.address ++ (ver ++ (ven ++ (mdl ++ (fw ++ ser))))), atPoll line
      (request line (sensor.address ++ info ++ bang) s) j) :=
    infoLoop_first line sensor j 200 _ _ hj hbefore hat
  rw [hrun, parseInfo_layout sensor ver ven mdl fw ser h2 h8 h6 h3]
  have n1 : ∀ c ∈ ver ++ (ven ++ (mdl ++ (fw ++ ser))), c ≠ NUL :=
    fun c hc => hnn c (List.mem_append_right _ hc)
  have n2 : ∀ c ∈ ven ++ (mdl ++ (fw ++ ser)), c ≠ NUL :=
    fun c hc => n1 c (List.mem_append_right _ hc)
  have n3 : ∀ c ∈ mdl ++ (fw ++ ser), c ≠ NUL :=
    fun c hc => n2 c (List.mem_append_right _ hc)
  have n4 : ∀ c ∈ fw ++ ser, c ≠ NUL := fun c hc => n3 c (List.mem_append_right _ hc)
  have n5 : ∀ c ∈ ser, c ≠ NUL := fun c hc => n4 c (List.mem_append_right _ hc)
  refine ⟨rfl, ?_, ?_, ?_, ?_, ?_, ?_, ?_, ?_, ?_, ?_, rfl, rfl, rfl⟩
  · show (strncpy sensor.v_SDI12 _ 2).take 2 = ver
    rw [strncpy_take_full _ _ _ (by rw [List.length_append]; omega), List.take_left' h2]
  · show (strncpy sensor.vendor _ 8).take 8 = ven
    rw [strncpy_take_full _ _ _ (by rw [List.length_append]; omega), List.take_left' h8]
  · show (strncpy sensor.model _ 6).take 6 = mdl
    rw [strncpy_take_full _ _ _ (by rw [List.length_append]; omega), List.take_left' h6]
  · show (strncpy sensor.version _ 3).take 3 = fw
    rw [strncpy_take_full _ _ _ (by rw [List.length_append]; omega), List.take_left' h3]
  · exact strncpy_take_cstr _ _ _ h13 n5
  · intro hd
    show cstr (strncpy sensor.v_SDI12 _ 2) = ver
    rw [strncpy_cstr_full _ _ _ (by rw [List.length_append]; omega) n1 hd, List.take_left' h2]
  · intro hd
    show cstr (strncpy sensor.vendor _ 8) = ven
    rw [strncpy_cstr_full _ _ _ (by rw [List.length_append]; omega) n2 hd, List.take_left' h8]
  · intro hd
    show cstr (strncpy sensor.model _ 6) = mdl
    rw [strncpy_cstr_full _ _ _ (by rw [List.length_append]; omega) n3 hd, List.take_left' h6]
  · intro hd
    show cstr (strncpy sensor.version _ 3) = fw
    rw [strncpy_cstr_full _ _ _ (by rw [List.length_append]; omega) n4 hd, List.take_left' h3]
  · intro hd
    show cstr (strncpy sensor.serial ser 13) = ser
    rcases hd with hd | hd
    · exact strncpy_cstr_short _ _ _ hd n5
    · by_cases hlt : ser.length < 13
      · exact strncpy_cstr_short _ _ _ hlt n5
      · rw [strncpy_cstr_full _ _ _ (by omega) n5 hd, List.take_of_length_le (by omega)]

/-- C7 on a line that answers the info request at once. -/
theorem C7_info_fields_witness :
    strextract (SDI12_uart_get_string (atPoll infoLine
      (request infoLine ((sensorA 2).address ++ info ++ bang) sys0) 0)) bang crlf =
        some ((sensorA 2).address ++ ("13".toList ++ ("ACMECORP".toList ++
          ("WX-100".toList ++ ("2.1".toList ++ "SN00042".toList))))) ∧
    (SDI12_info infoLine (sensorA 2) sys0).1 = 1 ∧
    cstr (SDI12_info infoLine (sensorA 2) sys0).2.1.v_SDI12 = "13".toList ∧
    cstr (SDI12_info infoLine (sensorA 2) sys0).2.1.vendor = "ACMECORP".toList ∧
    cstr (SDI12_info infoLine (sensorA 2) sys0).2.1.model = "WX-100".toList ∧
    cstr (SDI12_info infoLine (sensorA 2) sys0).2.1.version = "2.1".toList ∧
    cstr (SDI12_info infoLine (sensorA 2) sys0).2.1.serial = "SN00042".toList := by
  have h := C7_info_fields infoLine (sensorA 2) sys0 0 "13".toList "ACMECORP".toList
    "WX-100".toList "2.1".toList "SN00042".toList (by decide)
    (fun k hk => absurd hk (by omega)) (by decide) rfl rfl rfl rfl (by decide)
  exact ⟨by decide, h.1, h.2.2.2.2.2.2.1 (by decide), h.2.2.2.2.2.2.2.1 (by decide),
    h.2.2.2.2.2.2.2.2.1 (by decide), h.2.2.2.2.2.2.2.2.2.1 (by decide),
    h.2.2.2.2.2.2.2.2.2.2.1 (Or.inl (by decide))⟩


end SDI12

namespace Autosampler

/-- With a bottle left, `autosampler_take_sample` returns 1 and `*count` becomes the
reading of the pulse counter. -/
theorem take_sample_ok (hw : Hw) (count : Nat) (d : Dev) (h : count < hw.MAX_BOTTLE_COUNT) :
    (autosampler_take_sample hw count d).1 = 1 ∧
    (autosampler_take_sample hw count d).2.1 = hw.counter % 256 := by
  unfold autosampler_take_sample
  rw [if_neg (by omega)]
  exact ⟨rfl, rfl⟩

/-- C10: `zip_autosampler` stores only below `max_size`. When `ix + 2 >= max_size` it
returns `ix` and changes nothing. Otherwise it stores a label and a reading at `ix` and,
with a bottle left, at `ix + 1`, all below `max_size`; it returns the stored index, which
is `ix + 1` when the bottle count has reached `MAX_BOTTLE_COUNT` and `ix + 2` when it
has not, without wrapping at 256. -/
theorem C10_zip_autosampler (hw : Hw) (m : Mem) (max_size : Nat) (d : Dev)
    (hmax : max_size < 256) :
    (max_size ≤ m.array_ix + 2 → zip_autosampler hw m max_size d = (m.array_ix, m, d)) ∧
    (m.array_ix + 2 < max_size →
      (zip_autosampler hw m max_size d).1 = (zip_autosampler hw m max_size d).2.1.array_ix ∧
      (hw.MAX_BOTTLE_COUNT ≤ m.bottle_count →
        (zip_autosampler hw m max_size d).1 = m.array_ix + 1 ∧
        (zip_autosampler hw m max_size d).2.1.written =
          m.written ++ [m.array_ix, m.array_ix]) ∧
      (m.bottle_count < hw.MAX_BOTTLE_COUNT →
        (zip_autosampler hw m max_size d).1 = m.array_ix + 2 ∧
        (zip_autosampler hw m max_size d).2.1.written =
          m.written ++ [m.array_ix, m.array_ix, m.array_ix + 1, m.array_ix + 1]) ∧
      (∃ new, (zip_autosampler hw m max_size d).2.1.written = m.written ++ new ∧
        ∀ i ∈ new, i < max_size) ∧
      (∀ i, max_size ≤ i →
        (zip_autosampler hw m max_size d).2.1.labels i = m.labels i ∧
        (zip_autosampler hw m max_size d).2.1.readings i = m.readings i)) := by
  constructor
  · intro h
    unfold zip_autosampler
    rw [if_pos (by omega)]
  · intro h
    have h1 : (m.array_ix + 1) % 256 = m.array_ix + 1 := Nat.mod_eq_of_lt (by omega)
    have h2 : (m.array_ix + 1 + 1) % 256 = m.array_ix + 2 := Nat.mod_eq_of_lt (by omega)
    by_cases hb : m.bottle_count < hw.MAX_BOTTLE_COUNT
    · have hts := take_sample_ok hw m.bottle_count
        (autosampler_power_on (autosampler_start d).2).2 hb
      have hne : (autosampler_take_sample hw m.bottle_count
          (autosampler_power_on (autosampler_start d).2).2).1 ≠ 0 := by
        rw [hts.1]
        exact Nat.one_ne_zero
      have hrun : zip_autosampler hw m max_size d =
          (m.array_ix + 2,
           { m with
             autosampler_trigger := 0,
             labels := Function.update
               (Function.update m.labels m.array_ix "autosampler_trigger")
               (m.array_ix + 1) "isco_bottle",
             readings := Function.update (Function.update m.readings m.array_ix 0)
               (m.array_ix + 1) (((autosampler_take_sample hw m.bottle_count
                 (autosampler_power_on (autosampler_start d).2).2).2.1 : Nat) : Int),
             bottle_count := (autosampler_take_sample hw m.bottle_count
               (autosampler_power_on (autosampler_start d).2).2).2.1,
             array_ix := m.array_ix + 2,
             written := m.written ++ [m.array_ix] ++ [m.array_ix] ++ [m.array_ix + 1] ++
               [m.array_ix + 1] },
           (autosampler_stop (autosampler_power_off (autosampler_take_sample hw m.bottle_count
             (autosampler_power_on (autosampler_start d).2).2).2.2).2).2) := by
        unfold zip_autosampler
        simp only [if_neg (show ¬ (m.array_ix + 2 ≥ max_size) by omega), hb, if_true, hne,
          ne_eq, not_false_eq_true, h1, h2]
      rw [hrun]
      refine ⟨rfl, fun hge => absurd hb (by omega), fun _ => ⟨rfl, by simp⟩,
        ⟨[m.array_ix, m.array_ix, m.array_ix + 1, m.array_ix + 1], by simp, ?_⟩, ?_⟩
      · intro i hi
        simp only [List.mem_cons, List.mem_singleton, List.not_mem_nil, or_false] at hi
        omega
      · intro i hi
        exact ⟨by
          show Function.update (Function.update m.labels m.array_ix "autosampler_trigger")
            (m.array_ix + 1) "isco_bottle" i = m.labels i
          rw [Function.update_noteq (by omega), Function.update_noteq (by omega)], by
          show Function.update (Function.update m.readings m.array_ix 0)
            (m.array_ix + 1) _ i = m.readings i
          rw [Function.update_noteq (by omega), Function.update_noteq (by omega)]⟩
    · have hrun : zip_autosampler hw m max_size d =
          (m.array_ix + 1,
           { m with
             autosampler_trigger := 0,
             labels := Function.update m.labels m.array_ix "autosampler_trigger",
             readings := Function.update m.readings m.array_ix 0,
             array_ix := m.array_ix + 1,
             written := m.written ++ [m.array_ix] ++ [m.array_ix] },
           d) := by
        unfold zip_autosampler
        simp only [if_neg (show ¬ (m.array_ix + 2 ≥ max_size) by omega), hb, if_false, h1]
      rw [hrun]
      refine ⟨rfl, fun _ => ⟨rfl, by simp⟩, fun hlt => absurd hlt hb,
        ⟨[m.array_ix, m.array_ix], by simp, ?_⟩, ?_⟩
      · intro i hi
        simp only [List.mem_cons, List.mem_singleton, List.not_mem_nil, or_false] at hi
        omega
      · intro i hi
        exact ⟨by
          show Function.update m.labels m.array_ix "autosampler_trigger" i = m.labels i
          rw [Function.update_noteq (by omega)], by
          show Function.update m.readings m.array_ix 0 i = m.readings i
          rw [Function.update_noteq (by omega)]⟩


/-- C10 with capacity 10: at index 8 nothing is stored and 8 is returned; at index 3,
with a bottle left, 5 is returned. -/
theorem C10_zip_autosampler_witness :
    (10 : Nat) < 256 ∧
    zip_autosampler hw0 (mem0 8) 10 dev0 = ((mem0 8).array_ix, mem0 8, dev0) ∧
    (zip_autosampler hw0 (mem0 3) 10 dev0).1 = (mem0 3).array_ix + 2 :=
  ⟨by decide,
   (C10_zip_autosampler hw0 (mem0 8) 10 dev0 (by decide)).1 (by decide),
   (((C10_zip_autosampler hw0 (mem0 3) 10 dev0 (by decide)).2 (by decide)).2.2.1
     (by decide)).1⟩

end Autosampler
